import Mathlib

/-!
# motion-ca: mobile agents, proximity graphs and a local cellular-automaton rule

A shallow embedding of the simulation core (`Agent.cpp`, `Network.cpp`,
`Model.cpp`) and the properties proved about it.

Conventions of the embedding.

* `double` values are elements of an ordered field `R` (exact arithmetic); the
  definitions are executable at `R = ℚ` and the theorems hold at `R = ℝ` too.
* `int` values are `Int`; container sizes and loop counters are `Nat`.  The `int`
  product `_num_vertices * (_num_vertices-1)` of `Density` leaves the `int` range from
  46342 vertices on and is reduced by `wrapInt32`; the other totals are bounded by the
  number of stored neighbours and are not reduced.
* A member function that mutates its object returns the new object; one that can
  throw returns an `Except Fault`, together with the object where the state after a
  throw is observable.
* `std::set<int>` is `Finset Int`; iterating it visits `Finset.sort (· ≤ ·)`.
-/

set_option autoImplicit false
set_option linter.unusedSectionVars false

namespace MotionCA

/-! ## Failures -/

/-- The ways an operation of the program can fail. -/
inductive Fault where
  /-- the `std::out_of_range` thrown by `Network.cpp`, with its message -/
  | out_of_range (what : String)
  /-- the `std::length_error` of the sized constructor of `std::vector` on a negative count -/
  | length_error
  /-- an unchecked `operator[]` outside its container (undefined behaviour in C++) -/
  | undefined_access
  deriving DecidableEq, Repr

/-! ## Machine integers -/

/-- The `int` the program holds when an `int` expression has the mathematical value
`x`: the representative of `x` modulo `2^32` in `[-2^31, 2^31)`.  (Signed overflow is
undefined in C++; the compilers the program is built with wrap, and the value is `x`
itself whenever `x` fits.) -/
def wrapInt32 (x : Int) : Int :=
  (x + 2 ^ 31) % 2 ^ 32 - 2 ^ 31

/-! ## Network.cpp -/

/-- The class `NetworkSnapshot`: `_num_vertices` and `_adjacency_list`
(a `std::vector<std::set<int>>`). -/
structure NetworkSnapshot where
  num_vertices : Int
  adjacency_list : List (Finset Int)
  deriving DecidableEq

namespace NetworkSnapshot

/-- The constructor `NetworkSnapshot(int num_vertices)`: one empty set per vertex.
A negative count converts to a size beyond `max_size()` and the constructor of
the vector throws. -/
def new (num_vertices : Int) : Except Fault NetworkSnapshot :=
  if num_vertices < 0 then .error .length_error
  else .ok ⟨num_vertices, List.replicate num_vertices.toNat ∅⟩

/-- The class invariant kept by the constructor and `AddEdge`: the vector has
`_num_vertices` entries. -/
def WF (s : NetworkSnapshot) : Prop :=
  0 ≤ s.num_vertices ∧ s.adjacency_list.length = s.num_vertices.toNat

instance (s : NetworkSnapshot) : Decidable s.WF := by
  unfold WF; exact inferInstance

/-- The set `_adjacency_list[v]` (empty outside the vector). -/
def adj (s : NetworkSnapshot) (v : Nat) : Finset Int :=
  s.adjacency_list.getD v ∅

/-- The statement `_adjacency_list[v].insert(w)`. -/
def insertAt (l : List (Finset Int)) (v : Nat) (w : Int) : List (Finset Int) :=
  l.set v (insert w (l.getD v ∅))

/-- The method `NetworkSnapshot::AddEdge(int i, int j)`: the outcome and the snapshot
afterwards. -/
def AddEdge (s : NetworkSnapshot) (i j : Int) : Except Fault Unit × NetworkSnapshot :=
  if i = j ∨ i < 0 ∨ j < 0 ∨ i ≥ s.num_vertices ∨ j ≥ s.num_vertices then
    (.error (.out_of_range "NetworkSnapshot::AddEdge()"), s)
  else
    (.ok (),
      { s with adjacency_list :=
          insertAt (insertAt s.adjacency_list i.toNat j) j.toNat i })

/-- The method `NetworkSnapshot::GetNeighbors(int v)`: a copy of the neighbour set. -/
def GetNeighbors (s : NetworkSnapshot) (v : Int) : Except Fault (Finset Int) :=
  if v < 0 ∨ v ≥ s.num_vertices then .error (.out_of_range "Network::GetNeighbors")
  else .ok (s.adj v.toNat)

/-- The friend `operator==` on snapshots: equality of the two adjacency vectors. -/
def operatorEq (s g : NetworkSnapshot) : Bool :=
  decide (s.adjacency_list = g.adjacency_list)

/-- The total the loops of `Density`, `AverageDegree` and `EdgeCount` accumulate: the
sizes of all adjacency sets.  It is at most `n*(n-1)` and reaches `2^31` only with more
than `2^30` stored edges, so the `int` and `unsigned int` accumulators are not
reduced. -/
def degreeSum (s : NetworkSnapshot) : Nat :=
  (s.adjacency_list.map Finset.card).sum

/-- The method `NetworkSnapshot::EdgeCount`: the `int` total halved by integer
division. -/
def EdgeCount (s : NetworkSnapshot) : Int :=
  (s.degreeSum : Int) / 2

/-- The loop of `NetworkSnapshot::DegreeDistribution` over the adjacency sets still to
visit: `degree_distribution[degree] += 1`, an unchecked `operator[]`. -/
def DegreeDistribution.tally : List (Finset Int) → List Nat → Except Fault (List Nat)
  | [], degree_distribution => .ok degree_distribution
  | al :: rest, degree_distribution =>
    if al.card < degree_distribution.length then
      DegreeDistribution.tally rest
        (degree_distribution.set al.card (degree_distribution.getD al.card 0 + 1))
    else .error .undefined_access

/-- The method `NetworkSnapshot::DegreeDistribution`. -/
def DegreeDistribution (s : NetworkSnapshot) : Except Fault (List Nat) :=
  if s.num_vertices < 0 then .error .length_error
  else DegreeDistribution.tally s.adjacency_list (List.replicate s.num_vertices.toNat 0)

/-- A sequence of `AddEdge(i, j)` calls on one snapshot, each of which returns or
throws: the snapshot afterwards. -/
def addEdges (s : NetworkSnapshot) : List (Int × Int) → NetworkSnapshot
  | [] => s
  | (i, j) :: rest => addEdges (s.AddEdge i j).2 rest

/-- The snapshot built by `NetworkSnapshot(n)` followed by a sequence of `AddEdge`
calls. -/
def build (n : Int) (calls : List (Int × Int)) : Except Fault NetworkSnapshot :=
  match NetworkSnapshot.new n with
  | .ok s => .ok (s.addEdges calls)
  | .error e => .error e

/-- The invariant of the data model: the vector has `_num_vertices` entries, and every
stored neighbour `k` of a vertex `v` is an index in `[0, n)`, differs from `v`, and
has `v` among its own neighbours. -/
def Inv (s : NetworkSnapshot) : Prop :=
  s.WF ∧ ∀ (v : Nat) (k : Int), k ∈ s.adj v →
    0 ≤ k ∧ k < s.num_vertices ∧ k ≠ v ∧ (v : Int) ∈ s.adj k.toNat

end NetworkSnapshot

section NetworkStatistics

variable {R : Type} [LinearOrderedField R]

/-- The method `NetworkSnapshot::Density`: the sizes accumulated in a `double`, divided
by the `int` product `_num_vertices * (_num_vertices-1)`, which is computed in `int`
and converted to `double` for the division.  (With fewer than two vertices the C++
quotient is a division by `0.0`; the field quotient is then `0`.) -/
def NetworkSnapshot.Density (s : NetworkSnapshot) : R :=
  (s.degreeSum : R) / ((wrapInt32 (s.num_vertices * (s.num_vertices - 1)) : Int) : R)

/-- The method `NetworkSnapshot::AverageDegree`: the `unsigned int` total divided by
`_num_vertices` in integer arithmetic, the quotient then converted to `double`.
(With no vertex the C++ division is undefined; the quotient is then `0`.) -/
def NetworkSnapshot.AverageDegree (s : NetworkSnapshot) : R :=
  ((s.degreeSum / s.num_vertices.toNat : Nat) : R)

/-- The method `NetworkSnapshot::NormalizedDegreeDistribution`. -/
def NetworkSnapshot.NormalizedDegreeDistribution (s : NetworkSnapshot) :
    Except Fault (List R) :=
  match s.DegreeDistribution with
  | .ok degree_distribution =>
    .ok (degree_distribution.map (fun d => (d : R) / (s.num_vertices : R)))
  | .error e => .error e

end NetworkStatistics

/-- The class `Network`: the append-only vector `_snapshots`. -/
structure Network where
  snapshots : List NetworkSnapshot
  deriving DecidableEq

namespace Network

/-- The method `Network::AppendSnapshot`. -/
def AppendSnapshot (n : Network) (snapshot : NetworkSnapshot) : Network :=
  ⟨n.snapshots ++ [snapshot]⟩

/-- The method `Network::Size`. -/
def Size (n : Network) : Nat :=
  n.snapshots.length

/-- The method `Network::GetSnapshot(unsigned int t)`: the guard is `t > size()`, and
the unchecked `_snapshots[t]` follows. -/
def GetSnapshot (n : Network) (t : Nat) : Except Fault NetworkSnapshot :=
  if t > n.snapshots.length then .error (.out_of_range "Network::GetSnapshot()")
  else
    match n.snapshots[t]? with
    | some s => .ok s
    | none => .error .undefined_access

end Network

/-! ## Geometry (Point.hpp) and `<cmath>` -/

section Geometry

variable {R : Type} [LinearOrderedField R] [FloorRing R]

/-- The `<cmath>` names the code uses: the constant `M_PI` and the functions `cos`
and `sin`.  At `R = ℝ` they are `Real.pi`, `Real.cos` and `Real.sin`. -/
structure CMath (R : Type) where
  M_PI : R
  cos : R → R
  sin : R → R

/-- Modelled from the spec: the value type `Point` of Point.hpp, which is not among
the sources: an immutable pair of coordinates. -/
structure Point (R : Type) where
  x : R
  y : R
  deriving DecidableEq

/-- Modelled from the spec: the accessor `Point::GetX`. -/
def Point.GetX (p : Point R) : R := p.x

/-- Modelled from the spec: the accessor `Point::GetY`. -/
def Point.GetY (p : Point R) : R := p.y

/-- Modelled from the spec: `Point::Within(range, other)` of Point.hpp, which is not
among the sources: true iff the Euclidean distance from the point to `other` is at
most `range`, inclusive.  The distance is the square root of
`(x - x′)² + (y - y′)²`, and `√d ≤ r` is decided as `0 ≤ r` and `d ≤ r²`. -/
def Point.Within (p : Point R) (range : R) (other : Point R) : Bool :=
  decide (0 ≤ range ∧ (p.x - other.x) ^ 2 + (p.y - other.y) ^ 2 ≤ range ^ 2)

/-- Modelled from the spec: the value type `Heading` of Point.hpp, which is not among
the sources: an angle in radians, kept normalised to the full-turn interval
`[0, 2π)`, so that equality compares normalised values. -/
structure Heading (R : Type) where
  radians : R
  deriving DecidableEq

/-- Modelled from the spec: reduction of an angle to `[0, 2π)`. -/
def Heading.normalize (cm : CMath R) (a : R) : R :=
  a - (⌊a / (2 * cm.M_PI)⌋ : R) * (2 * cm.M_PI)

/-- Modelled from the spec: the constructor `Heading(double)`. -/
def Heading.ofRadians (cm : CMath R) (a : R) : Heading R :=
  ⟨Heading.normalize cm a⟩

/-- Modelled from the spec: the accessor `Heading::Radians`. -/
def Heading.Radians (h : Heading R) : R := h.radians

/-- Modelled from the spec: `operator+` on headings, modular over a full turn. -/
def Heading.add (cm : CMath R) (a b : Heading R) : Heading R :=
  Heading.ofRadians cm (a.radians + b.radians)

/-- Modelled from the spec: `operator-` on headings, modular over a full turn. -/
def Heading.sub (cm : CMath R) (a b : Heading R) : Heading R :=
  Heading.ofRadians cm (a.radians - b.radians)

/-! ## Agent.cpp -/

/-- The class `Agent`.  `speed`, `arena_size`, `position` and `heading` are the
members Agent.cpp initialises; the two counters are the ones the data model of the
spec lists (Agent.hpp is not among the sources). -/
structure Agent (R : Type) where
  speed : R
  arena_size : R
  position : Point R
  heading : Heading R
  update_interval : Int
  ticks_since_turn : Int

/-- Modelled from the spec: the members of `Agent` that Model.cpp calls and Agent.cpp
does not define (`ShouldTurn`, `SetUpdateInterval`) and the initial values of the two
counters.  The spec fixes them only as a per-agent countdown of `ticks_since_turn`
against `update_interval`, so they are parameters of the model. -/
structure TurnSchedule (R : Type) where
  initial_update_interval : Int
  initial_ticks_since_turn : Int
  ShouldTurn : Agent R → Bool × Agent R
  SetUpdateInterval : Agent R → Int → Agent R

namespace Agent

/-- The constructor `Agent(Point p, Heading h, double speed, double arena_size)`. -/
def new (ts : TurnSchedule R) (p : Point R) (h : Heading R) (speed arena_size : R) :
    Agent R :=
  ⟨speed, arena_size, p, h, ts.initial_update_interval, ts.initial_ticks_since_turn⟩

/-- The method `Agent::Position`. -/
def Position (a : Agent R) : Point R := a.position

/-- The method `Agent::GetHeading`. -/
def GetHeading (a : Agent R) : Heading R := a.heading

/-- Modelled from the spec: the setter `Agent::SetHeading` that Model.cpp calls. -/
def SetHeading (a : Agent R) (h : Heading R) : Agent R :=
  { a with heading := h }

/-- The method `Agent::IsOutOfBounds`. -/
def IsOutOfBounds (a : Agent R) (p : Point R) : Bool :=
  decide (p.GetX < (-a.arena_size) / 2) || decide (p.GetX > a.arena_size / 2)
    || decide (p.GetY < (-a.arena_size) / 2) || decide (p.GetY > a.arena_size / 2)

/-- The x half of `Agent::Reflect`: the new abscissa and the agent with its heading
updated. -/
def ReflectX (cm : CMath R) (a : Agent R) (p : Point R) : R × Agent R :=
  if p.GetX > a.arena_size / 2 then
    (a.arena_size / 2 - (p.GetX - a.arena_size / 2),
      { a with heading := Heading.sub cm (Heading.ofRadians cm cm.M_PI) a.heading })
  else if p.GetX < (-a.arena_size) / 2 then
    ((-a.arena_size) / 2 - (p.GetX + a.arena_size / 2),
      { a with heading := Heading.sub cm (Heading.ofRadians cm cm.M_PI) a.heading })
  else (p.GetX, a)

/-- The y half of `Agent::Reflect`. -/
def ReflectY (cm : CMath R) (a : Agent R) (p : Point R) : R × Agent R :=
  if p.GetY > a.arena_size / 2 then
    (a.arena_size / 2 - (p.GetY - a.arena_size / 2),
      { a with heading := Heading.sub cm (Heading.ofRadians cm (2 * cm.M_PI)) a.heading })
  else if p.GetY < (-a.arena_size) / 2 then
    ((-a.arena_size) / 2 - (p.GetY + a.arena_size / 2),
      { a with heading := Heading.sub cm (Heading.ofRadians cm (2 * cm.M_PI)) a.heading })
  else (p.GetY, a)

/-- The method `Agent::Reflect`: the returned point and the agent afterwards (the
method assigns `_heading`). -/
def Reflect (cm : CMath R) (a : Agent R) (p : Point R) : Point R × Agent R :=
  let rx := ReflectX cm a p
  let ry := ReflectY cm rx.2 p
  (⟨rx.1, ry.1⟩, ry.2)

/-- The local `new_position` of `Agent::Step`: the position displaced by
`(_speed * cos(heading), _speed * sin(heading))`. -/
def tentative (cm : CMath R) (a : Agent R) : Point R :=
  let dx := a.speed * cm.cos a.heading.Radians
  let dy := a.speed * cm.sin a.heading.Radians
  ⟨a.position.GetX + dx, a.position.GetY + dy⟩

/-- The method `Agent::Step`. -/
def Step (cm : CMath R) (a : Agent R) : Agent R :=
  let new_position : Point R := a.tentative cm
  if a.IsOutOfBounds new_position then
    let r := a.Reflect cm new_position
    { r.2 with position := r.1 }
  else
    { a with position := new_position }

end Agent

end Geometry

/-! ## Rule.hpp -/

/-- The capability of a `Rule`: `Apply(self_state, neighbor_states)`. -/
abbrev Rule := Int → List Int → Int

/-- Modelled from the spec: the rule `Identity` of Rule.hpp, which is not among the
sources: returns `self_state` unchanged. -/
def Identity.Apply : Rule :=
  fun self_state _ => self_state

/-- Modelled from the spec: the rule `MajorityRule` of Rule.hpp, which is not among
the sources: counts votes over `self_state` together with `neighbor_states` and
returns 1 if ones > zeros, 0 if zeros > ones.  On a tie the spec records that the
reference favours ones only when strictly greater, so a tie gives 0. -/
def MajorityRule.Apply : Rule :=
  fun self_state neighbor_states =>
    let ones := (self_state :: neighbor_states).count 1
    let zeros := (self_state :: neighbor_states).count 0
    if ones > zeros then 1 else 0

/-- Modelled from the spec: the rule `AlwaysOne`. -/
def AlwaysOne.Apply : Rule :=
  fun _ _ => 1

/-- Modelled from the spec: the rule `AlwaysZero`. -/
def AlwaysZero.Apply : Rule :=
  fun _ _ => 0

/-! ## Model.cpp -/

section ModelDefs

variable {R : Type} [LinearOrderedField R] [FloorRing R] {G : Type}

/-- The class `ModelStats`: `_network` and `_ca_density`. -/
structure ModelStats (R : Type) where
  network : Network
  ca_density : List R

namespace ModelStats

/-- The default constructor `ModelStats()`. -/
def empty : ModelStats R := ⟨⟨[]⟩, []⟩

/-- The method `ModelStats::PushState`. -/
def PushState (st : ModelStats R) (density : R) (snapshot : NetworkSnapshot) :
    ModelStats R :=
  ⟨st.network.AppendSnapshot snapshot, st.ca_density ++ [density]⟩

/-- The method `ModelStats::GetNetwork`. -/
def GetNetwork (st : ModelStats R) : Network := st.network

/-- The method `ModelStats::ElapsedTime`. -/
def ElapsedTime (st : ModelStats R) : Nat := st.network.Size

/-- The method `ModelStats::GetDensityHistory`. -/
def GetDensityHistory (st : ModelStats R) : List R := st.ca_density

/-- The method `ModelStats::IsCorrect`. -/
def IsCorrect (st : ModelStats R) : Bool :=
  match st.ca_density.head?, st.ca_density.getLast? with
  | some first, some last =>
    if first ≥ 1 / 2 then decide (last = 1) else decide (last = 0)
  | _, _ => false

end ModelStats

/-- The `<random>` library as the constructor of `Model` uses it, over a generator
state `G`: seeding `std::mt19937_64`, and one draw of each distribution, returning
the value and the generator afterwards.  The library requires `a ≤ b` of
`uniform_real_distribution(a, b)` and `0 ≤ p ≤ 1` of `bernoulli_distribution(p)`;
outside these the C++ behaviour is undefined and the draws below stand for nothing. -/
structure RandomSource (R G : Type) where
  seed : Int → G
  uniform_real : R → R → G → R × G
  bernoulli : R → G → Bool × G
  uniform_int : Int → Int → G → Int × G

/-- The class `Model`. -/
structure Model (R G : Type) where
  communication_range : R
  rng : G
  agents : List (Agent R)
  agent_states : List Int
  turn_distribution : G → R × G
  step_distribution : G → Int × G
  stats : ModelStats R

namespace Model

/-- The method `Model::CurrentDensity`: the states accumulated from `0.0`, divided by
their number.  (With no agents the C++ quotient is `0.0 / 0`, a NaN; the field
quotient is then `0`.) -/
def CurrentDensity (m : Model R G) : R :=
  ((m.agent_states.sum : Int) : R) / (m.agent_states.length : R)

/-- The test of the inner loop of `Model::CurrentNetwork` at a pair of indices:
`_agents[i].Position().Within(_communication_range, _agents[j].Position())`. -/
def linked (agents : List (Agent R)) (range : R) (i j : Nat) : Bool :=
  match agents[i]?, agents[j]? with
  | some ai, some aj => ai.Position.Within range aj.Position
  | _, _ => false

/-- The inner loop of `Model::CurrentNetwork` for a fixed `i`, over the values of `j`
still to visit. -/
def CurrentNetwork.row (agents : List (Agent R)) (range : R) (i : Nat) :
    List Nat → NetworkSnapshot → Except Fault NetworkSnapshot
  | [], snapshot => .ok snapshot
  | j :: js, snapshot =>
    match agents[i]?, agents[j]? with
    | some ai, some aj =>
      if ai.Position.Within range aj.Position then
        match snapshot.AddEdge i j with
        | (.ok _, snapshot1) => CurrentNetwork.row agents range i js snapshot1
        | (.error e, _) => .error e
      else CurrentNetwork.row agents range i js snapshot
    | _, _ => .error .undefined_access

/-- The outer loop of `Model::CurrentNetwork`, over the values of `i` still to visit;
`j` runs from `i + 1` to `_agents.size() - 1`. -/
def CurrentNetwork.rows (agents : List (Agent R)) (range : R) :
    List Nat → NetworkSnapshot → Except Fault NetworkSnapshot
  | [], snapshot => .ok snapshot
  | i :: is, snapshot =>
    match CurrentNetwork.row agents range i
        (List.range' (i + 1) (agents.length - (i + 1))) snapshot with
    | .ok snapshot1 => CurrentNetwork.rows agents range is snapshot1
    | .error e => .error e

/-- The method `Model::CurrentNetwork`. -/
def CurrentNetwork (m : Model R G) : Except Fault NetworkSnapshot :=
  match NetworkSnapshot.new m.agents.length with
  | .ok snapshot =>
    CurrentNetwork.rows m.agents m.communication_range (List.range m.agents.length) snapshot
  | .error e => .error e

/-- The method `Model::GetStats`. -/
def GetStats (m : Model R G) : ModelStats R := m.stats

/-- The method `Model::GetAgents`. -/
def GetAgents (m : Model R G) : List (Agent R) := m.agents

/-- The body of the first loop of `Model::Step` for one agent: the agent and the
generator afterwards. -/
def Step.moveAgent (cm : CMath R) (ts : TurnSchedule R) (turn : G → R × G)
    (stepd : G → Int × G) (agent : Agent R) (g : G) : Agent R × G :=
  let a1 := agent.Step cm
  let due := ts.ShouldTurn a1
  if due.1 then
    let t := turn g
    let a2 := due.2.SetHeading (Heading.add cm due.2.GetHeading (Heading.ofRadians cm t.1))
    let k := stepd t.2
    (ts.SetUpdateInterval a2 k.1, k.2)
  else (due.2, g)

/-- The first loop of `Model::Step`: every agent in order, threading `_rng`. -/
def Step.moveAgents (cm : CMath R) (ts : TurnSchedule R) (turn : G → R × G)
    (stepd : G → Int × G) : List (Agent R) → G → List (Agent R) × G
  | [], g => ([], g)
  | agent :: rest, g =>
    let r := Step.moveAgent cm ts turn stepd agent g
    let rs := Step.moveAgents cm ts turn stepd rest r.2
    (r.1 :: rs.1, rs.2)

/-- The innermost loop of `Model::Step`: `neighbor_states.push_back(_agent_states[n])`
for every `n` of the neighbour set, in the order of the set. -/
def Step.neighborStates (agent_states : List Int) : List Int → Except Fault (List Int)
  | [] => .ok []
  | n :: ns =>
    if n < 0 then .error .undefined_access
    else
      match agent_states[n.toNat]? with
      | none => .error .undefined_access
      | some s =>
        match Step.neighborStates agent_states ns with
        | .ok rest => .ok (s :: rest)
        | .error e => .error e

/-- The second loop of `Model::Step`, over the values of `a` still to visit:
`new_states[a] = rule(_agent_states[a], neighbor_states)`. -/
def Step.update (rule : Rule) (current_network : NetworkSnapshot) (agent_states : List Int) :
    List Nat → List Int → Except Fault (List Int)
  | [], new_states => .ok new_states
  | a :: as, new_states =>
    match current_network.GetNeighbors a with
    | .error e => .error e
    | .ok neighbors =>
      match Step.neighborStates agent_states (neighbors.sort (· ≤ ·)) with
      | .error e => .error e
      | .ok neighbor_states =>
        match agent_states[a]? with
        | none => .error .undefined_access
        | some self_state =>
          if a < new_states.length then
            Step.update rule current_network agent_states as
              (new_states.set a (rule self_state neighbor_states))
          else .error .undefined_access

/-- The model after the first loop of `Model::Step`: the agents have moved and `_rng`
has advanced. -/
def Step.moved (cm : CMath R) (ts : TurnSchedule R) (m : Model R G) : Model R G :=
  let moved := Step.moveAgents cm ts m.turn_distribution m.step_distribution m.agents m.rng
  { m with agents := moved.1, rng := moved.2 }

/-- The statement `_stats.PushState(CurrentDensity(), snapshot)`, which ends both the
constructor and `Step`. -/
def recordState (m : Model R G) (snapshot : NetworkSnapshot) : Model R G :=
  { m with stats := m.stats.PushState m.CurrentDensity snapshot }

/-- The last two statements of `Model::Step`: `_agent_states = new_states` and
`_stats.PushState(CurrentDensity(), current_network)`. -/
def Step.commit (m1 : Model R G) (new_states : List Int) (current_network : NetworkSnapshot) :
    Model R G :=
  recordState { m1 with agent_states := new_states } current_network

/-- The method `Model::Step(Rule* rule)`: the outcome and the model afterwards.  When
an exception leaves the method the agents have moved and nothing else has changed. -/
def Step (cm : CMath R) (ts : TurnSchedule R) (rule : Rule) (m : Model R G) :
    Except Fault Unit × Model R G :=
  let m1 : Model R G := Step.moved cm ts m
  match m1.CurrentNetwork with
  | .error e => (.error e, m1)
  | .ok current_network =>
    match Step.update rule current_network m1.agent_states
        (List.range m1.agent_states.length) (List.replicate m1.agents.length 0) with
    | .error e => (.error e, m1)
    | .ok new_states => (.ok (), Step.commit m1 new_states current_network)

/-- The loop of the constructor of `Model`, for the iterations still to run: the
agents and states pushed, and the generator afterwards.  The two coordinates are
drawn in the order x, y. -/
def construct.populate (cm : CMath R) (ts : TurnSchedule R) (rs : RandomSource R G)
    (arena_size initial_density : R) : Nat → G → List (Agent R) × List Int × G
  | 0, g => ([], [], g)
  | k + 1, g =>
    let x := rs.uniform_real ((-arena_size) / 2) (arena_size / 2) g
    let y := rs.uniform_real ((-arena_size) / 2) (arena_size / 2) x.2
    let h := rs.uniform_real 0 (2 * cm.M_PI) y.2
    let a := Agent.new ts ⟨x.1, y.1⟩ (Heading.ofRadians cm h.1) 1 arena_size
    let b := rs.bernoulli initial_density h.2
    let rest := construct.populate cm ts rs arena_size initial_density k b.2
    (a :: rest.1, (if b.1 then 1 else 0) :: rest.2.1, rest.2.2)

/-- The members of the model when the loop of the constructor has run and the two
distributions are assigned, before the first `PushState`. -/
def construct.initial (cm : CMath R) (ts : TurnSchedule R) (rs : RandomSource R G)
    (arena_size : R) (num_agents : Int) (communication_range : R) (seed : Int)
    (initial_density : R) : Model R G :=
  let pop := construct.populate cm ts rs arena_size initial_density num_agents.toNat
    (rs.seed seed)
  { communication_range := communication_range
    rng := pop.2.2
    agents := pop.1
    agent_states := pop.2.1
    turn_distribution := rs.uniform_real 0 (2 * cm.M_PI)
    step_distribution := rs.uniform_int 1 1
    stats := ModelStats.empty }

/-- The constructor `Model(arena_size, num_agents, communication_range, seed,
initial_density)`. -/
def construct (cm : CMath R) (ts : TurnSchedule R) (rs : RandomSource R G)
    (arena_size : R) (num_agents : Int) (communication_range : R) (seed : Int)
    (initial_density : R) : Except Fault (Model R G) :=
  let m0 := construct.initial cm ts rs arena_size num_agents communication_range seed
    initial_density
  match m0.CurrentNetwork with
  | .error e => .error e
  | .ok snapshot => .ok (m0.recordState snapshot)

/-- The loop `for(i = 0; i < k; i++) m.Step(rule)` of the tests and drivers: it stops
at the first step that throws. -/
def run (cm : CMath R) (ts : TurnSchedule R) (rule : Rule) :
    Nat → Model R G → Except Fault Unit × Model R G
  | 0, m => (.ok (), m)
  | k + 1, m =>
    match Step cm ts rule m with
    | (.ok _, m1) => run cm ts rule k m1
    | (.error e, m1) => (.error e, m1)

end Model

end ModelDefs

/-! ## Concrete instances

Small inputs over `ℚ` on which the definitions above are evaluated. -/

namespace Examples

/-- A `CMath` over `ℚ`: `M_PI` is `22/7`, and `cos` and `sin` take the values of the
cosine and the sine at the four axis-aligned headings `0`, `M_PI/2`, `M_PI` and
`3*M_PI/2` (and `0` elsewhere). -/
def cm : CMath ℚ where
  M_PI := 22 / 7
  cos := fun a => if a = 0 then 1 else if a = 22 / 7 then -1 else 0
  sin := fun a => if a = 11 / 7 then 1 else if a = 33 / 7 then -1 else 0

/-- A schedule under which no agent ever turns. -/
def ts : TurnSchedule ℚ where
  initial_update_interval := 1
  initial_ticks_since_turn := 0
  ShouldTurn := fun a => (false, a)
  SetUpdateInterval := fun a k => { a with update_interval := k }

/-- An agent at rest at `(x, y)` in an arena of side 100. -/
def still (x y : ℚ) : Agent ℚ :=
  Agent.new ts ⟨x, y⟩ (Heading.ofRadians cm 0) 0 100

/-- The agent of the test `bouncePerpendicularPosition` that starts on the right wall:
`Agent(Point(5,0), Heading(0), 2, 10)`. -/
def bouncer : Agent ℚ :=
  Agent.new ts ⟨5, 0⟩ (Heading.ofRadians cm 0) 2 10

/-- The agent `agent_pos_x` of the tests: `Agent(Point(0,0), Heading(0), 1, 10)`. -/
def walker : Agent ℚ :=
  Agent.new ts ⟨0, 0⟩ (Heading.ofRadians cm 0) 1 10

/-- A generator without state whose every draw is the lower bound of its
distribution, and `true` for a Bernoulli draw. -/
def rs : RandomSource ℚ Unit where
  seed := fun _ => ()
  uniform_real := fun a _ g => (a, g)
  bernoulli := fun _ g => (true, g)
  uniform_int := fun a _ g => (a, g)

/-- Two agents at distance 5 with communication range 5. -/
def pair : Model ℚ Unit where
  communication_range := 5
  rng := ()
  agents := [still 0 0, still 3 4]
  agent_states := [1, 0]
  turn_distribution := fun g => (0, g)
  step_distribution := fun g => (1, g)
  stats := ModelStats.empty

/-- Three agents at rest, pairwise within range 5, two of them in state 1. -/
def trio : Model ℚ Unit where
  communication_range := 5
  rng := ()
  agents := [still 0 0, still 3 4, still 3 0]
  agent_states := [1, 0, 1]
  turn_distribution := fun g => (0, g)
  step_distribution := fun g => (1, g)
  stats := ModelStats.empty

end Examples

/-! ## Theorems -/

namespace NetworkSnapshot

theorem length_insertAt (l : List (Finset Int)) (v : Nat) (w : Int) :
    (insertAt l v w).length = l.length := by
  simp [insertAt]

theorem getD_insertAt (l : List (Finset Int)) (v u : Nat) (w : Int) (hv : v < l.length) :
    (insertAt l v w).getD u ∅ = if u = v then insert w (l.getD v ∅) else l.getD u ∅ := by
  unfold insertAt
  by_cases h : u = v
  · subst h
    simp [List.getD_eq_getElem?_getD, List.getElem?_set, hv]
  · have h2 : ¬ v = u := fun e => h e.symm
    simp [List.getD_eq_getElem?_getD, List.getElem?_set, h, h2]

/-- The guard of `AddEdge` as a proposition. -/
theorem AddEdge_of_valid (s : NetworkSnapshot) (i j : Int)
    (h : ¬ (i = j ∨ i < 0 ∨ j < 0 ∨ i ≥ s.num_vertices ∨ j ≥ s.num_vertices)) :
    s.AddEdge i j =
      (.ok (), ⟨s.num_vertices, insertAt (insertAt s.adjacency_list i.toNat j) j.toNat i⟩) := by
  unfold AddEdge
  rw [if_neg h]

theorem AddEdge_of_invalid (s : NetworkSnapshot) (i j : Int)
    (h : i = j ∨ i < 0 ∨ j < 0 ∨ i ≥ s.num_vertices ∨ j ≥ s.num_vertices) :
    s.AddEdge i j = (.error (.out_of_range "NetworkSnapshot::AddEdge()"), s) := by
  unfold AddEdge
  rw [if_pos h]

/-- C9: `AddEdge(i, j)` throws `std::out_of_range` exactly when `i == j`, `i < 0`,
`j < 0`, `i >= vertex_count` or `j >= vertex_count`; it has no other failure, and
when it throws the snapshot is the one it was called on. -/
theorem AddEdge_error_iff (s : NetworkSnapshot) (i j : Int) :
    ((s.AddEdge i j).1 = .error (.out_of_range "NetworkSnapshot::AddEdge()") ↔
        (i = j ∨ i < 0 ∨ j < 0 ∨ i ≥ s.num_vertices ∨ j ≥ s.num_vertices)) ∧
    ((s.AddEdge i j).1 = .ok () ↔
        ¬ (i = j ∨ i < 0 ∨ j < 0 ∨ i ≥ s.num_vertices ∨ j ≥ s.num_vertices)) ∧
    ((s.AddEdge i j).1 ≠ .ok () → (s.AddEdge i j).2 = s) := by
  by_cases h : i = j ∨ i < 0 ∨ j < 0 ∨ i ≥ s.num_vertices ∨ j ≥ s.num_vertices
  · rw [AddEdge_of_invalid s i j h]
    simp [h]
  · rw [AddEdge_of_valid s i j h]
    simp [h]

/-- C10: on a snapshot with `n` vertices and a valid pair `i != j` in `[0, n)`,
`AddEdge(i, j)` succeeds; afterwards the neighbours of `i` are the old ones with `j`
inserted, the neighbours of `j` are the old ones with `i` inserted, `GetNeighbors`
answers as before for every other argument, and the vertex count is the same. -/
theorem AddEdge_frame (s : NetworkSnapshot) (i j : Int) (hs : s.WF)
    (hij : i ≠ j) (hi0 : 0 ≤ i) (hi : i < s.num_vertices)
    (hj0 : 0 ≤ j) (hj : j < s.num_vertices) :
    (s.AddEdge i j).1 = .ok () ∧
    (s.AddEdge i j).2.num_vertices = s.num_vertices ∧
    (s.AddEdge i j).2.WF ∧
    (s.AddEdge i j).2.GetNeighbors i = .ok (insert j (s.adj i.toNat)) ∧
    (s.AddEdge i j).2.GetNeighbors j = .ok (insert i (s.adj j.toNat)) ∧
    (s.GetNeighbors i = .ok (s.adj i.toNat)) ∧
    (s.GetNeighbors j = .ok (s.adj j.toNat)) ∧
    (∀ v : Int, v ≠ i → v ≠ j →
      (s.AddEdge i j).2.GetNeighbors v = s.GetNeighbors v) := by
  have hvalid : ¬ (i = j ∨ i < 0 ∨ j < 0 ∨ i ≥ s.num_vertices ∨ j ≥ s.num_vertices) := by
    omega
  obtain ⟨hn0, hlen⟩ := hs
  have hiN : i.toNat < s.adjacency_list.length := by omega
  have hjN : j.toNat < s.adjacency_list.length := by omega
  have hjN2 : j.toNat < (insertAt s.adjacency_list i.toNat j).length := by
    rw [length_insertAt]; exact hjN
  have hne : i.toNat ≠ j.toNat := by omega
  rw [AddEdge_of_valid s i j hvalid]
  refine ⟨rfl, rfl, ⟨hn0, ?_⟩, ?_, ?_, ?_, ?_, ?_⟩
  · simp [length_insertAt, hlen]
  · have : ¬ (i < 0 ∨ i ≥ s.num_vertices) := by omega
    simp only [GetNeighbors, this, if_false, adj]
    rw [getD_insertAt _ _ _ _ hjN2, if_neg hne, getD_insertAt _ _ _ _ hiN, if_pos rfl]
  · have : ¬ (j < 0 ∨ j ≥ s.num_vertices) := by omega
    simp only [GetNeighbors, this, if_false, adj]
    rw [getD_insertAt _ _ _ _ hjN2, if_pos rfl, getD_insertAt _ _ _ _ hiN, if_neg hne.symm]
  · have : ¬ (i < 0 ∨ i ≥ s.num_vertices) := by omega
    simp only [GetNeighbors, this, if_false]
  · have : ¬ (j < 0 ∨ j ≥ s.num_vertices) := by omega
    simp only [GetNeighbors, this, if_false]
  · intro v hvi hvj
    by_cases hv : v < 0 ∨ v ≥ s.num_vertices
    · simp only [GetNeighbors, hv, if_true]
    · simp only [GetNeighbors, hv, if_false, adj]
      have h1 : v.toNat ≠ j.toNat := by omega
      have h2 : v.toNat ≠ i.toNat := by omega
      rw [getD_insertAt _ _ _ _ hjN2, if_neg h1, getD_insertAt _ _ _ _ hiN, if_neg h2]

/-- C9 at a self-loop on three vertices: the call throws and the snapshot stays. -/
theorem AddEdge_error_iff_witness :
    ((⟨3, [∅, ∅, ∅]⟩ : NetworkSnapshot).AddEdge 1 1).1 =
        .error (.out_of_range "NetworkSnapshot::AddEdge()") ∧
      ((⟨3, [∅, ∅, ∅]⟩ : NetworkSnapshot).AddEdge 1 1).2 = ⟨3, [∅, ∅, ∅]⟩ :=
  have h := (AddEdge_error_iff ⟨3, [∅, ∅, ∅]⟩ 1 1).1.mpr (Or.inl rfl)
  ⟨h, (AddEdge_error_iff ⟨3, [∅, ∅, ∅]⟩ 1 1).2.2 (by rw [h]; simp)⟩

/-- C10 at the edge `(0, 2)` on three isolated vertices. -/
theorem AddEdge_frame_witness :
    ((⟨3, [∅, ∅, ∅]⟩ : NetworkSnapshot).AddEdge 0 2).1 = .ok () ∧
    ((⟨3, [∅, ∅, ∅]⟩ : NetworkSnapshot).AddEdge 0 2).2.num_vertices = 3 ∧
    ((⟨3, [∅, ∅, ∅]⟩ : NetworkSnapshot).AddEdge 0 2).2.WF ∧
    ((⟨3, [∅, ∅, ∅]⟩ : NetworkSnapshot).AddEdge 0 2).2.GetNeighbors 0 =
      .ok (insert 2 ((⟨3, [∅, ∅, ∅]⟩ : NetworkSnapshot).adj (0 : Int).toNat)) ∧
    ((⟨3, [∅, ∅, ∅]⟩ : NetworkSnapshot).AddEdge 0 2).2.GetNeighbors 2 =
      .ok (insert 0 ((⟨3, [∅, ∅, ∅]⟩ : NetworkSnapshot).adj (2 : Int).toNat)) ∧
    ((⟨3, [∅, ∅, ∅]⟩ : NetworkSnapshot).GetNeighbors 0 =
      .ok ((⟨3, [∅, ∅, ∅]⟩ : NetworkSnapshot).adj (0 : Int).toNat)) ∧
    ((⟨3, [∅, ∅, ∅]⟩ : NetworkSnapshot).GetNeighbors 2 =
      .ok ((⟨3, [∅, ∅, ∅]⟩ : NetworkSnapshot).adj (2 : Int).toNat)) ∧
    (∀ v : Int, v ≠ 0 → v ≠ 2 →
      ((⟨3, [∅, ∅, ∅]⟩ : NetworkSnapshot).AddEdge 0 2).2.GetNeighbors v =
        (⟨3, [∅, ∅, ∅]⟩ : NetworkSnapshot).GetNeighbors v) :=
  AddEdge_frame ⟨3, [∅, ∅, ∅]⟩ 0 2 (by decide) (by decide) (by decide) (by decide)
    (by decide) (by decide)

/-- The effect of a valid `AddEdge` on every adjacency set, for loop counters. -/
theorem AddEdge_nat (s : NetworkSnapshot) (i j : Nat) (hs : s.WF) (hij : i ≠ j)
    (hi : (i : Int) < s.num_vertices) (hj : (j : Int) < s.num_vertices) :
    ∃ s1, s.AddEdge i j = (.ok (), s1) ∧ s1.WF ∧ s1.num_vertices = s.num_vertices ∧
      ∀ (v : Nat) (k : Int),
        k ∈ s1.adj v ↔ (k ∈ s.adj v ∨ (v = i ∧ k = j) ∨ (v = j ∧ k = i)) := by
  have hvalid : ¬ ((i : Int) = j ∨ (i : Int) < 0 ∨ (j : Int) < 0 ∨
      (i : Int) ≥ s.num_vertices ∨ (j : Int) ≥ s.num_vertices) := by omega
  obtain ⟨hn0, hlen⟩ := hs
  have hiN : i < s.adjacency_list.length := by omega
  have hjN : j < (insertAt s.adjacency_list i j).length := by
    rw [length_insertAt]; omega
  refine ⟨_, AddEdge_of_valid s i j hvalid, ⟨hn0, ?_⟩, rfl, ?_⟩
  · simp [length_insertAt, hlen]
  · intro v k
    simp only [adj, Int.toNat_ofNat, getD_insertAt _ _ _ _ hjN, getD_insertAt _ _ _ _ hiN]
    by_cases h1 : v = j
    · subst h1
      have h3 : ¬ v = i := fun e => hij e.symm
      simp only [if_true, if_neg h3, Finset.mem_insert]
      tauto
    · by_cases h2 : v = i
      · subst h2
        simp only [if_neg h1, if_true, Finset.mem_insert]
        tauto
      · simp only [if_neg h1, if_neg h2]
        tauto

theorem adj_new (n : Nat) (v : Nat) :
    (⟨(n : Int), List.replicate n ∅⟩ : NetworkSnapshot).adj v = ∅ := by
  simp only [adj, List.getD_eq_getElem?_getD]
  by_cases h : v < n
  · simp [List.getElem?_replicate, h]
  · simp [List.getElem?_replicate, h]

theorem new_nat (n : Nat) :
    NetworkSnapshot.new (n : Int) = .ok ⟨(n : Int), List.replicate n ∅⟩ := by
  simp [NetworkSnapshot.new]

end NetworkSnapshot

namespace Model

section NetworkProofs

variable {R : Type} [LinearOrderedField R] [FloorRing R] {G : Type}

theorem linked_of_getElem? (agents : List (Agent R)) (range : R) (i j : Nat)
    (ai aj : Agent R) (hi : agents[i]? = some ai) (hj : agents[j]? = some aj) :
    linked agents range i j = ai.Position.Within range aj.Position := by
  simp [linked, hi, hj]

/-- The inner loop of `CurrentNetwork` never throws and adds exactly the linked pairs
`(i, j)` with `j` among the visited values. -/
theorem CurrentNetwork.row_spec (agents : List (Agent R)) (range : R) (i : Nat) :
    ∀ (js : List Nat) (s : NetworkSnapshot), s.WF → s.num_vertices = agents.length →
      (∀ j ∈ js, i < j ∧ j < agents.length) →
      ∃ s1, CurrentNetwork.row agents range i js s = .ok s1 ∧ s1.WF ∧
        s1.num_vertices = agents.length ∧
        ∀ (v : Nat) (k : Int), k ∈ s1.adj v ↔
          (k ∈ s.adj v ∨ ∃ j ∈ js, linked agents range i j = true ∧
            ((v = i ∧ k = j) ∨ (v = j ∧ k = i))) := by
  intro js
  induction js with
  | nil =>
    intro s hs hn _
    exact ⟨s, rfl, hs, hn, by simp⟩
  | cons j js ih =>
    intro s hs hn hjs
    have hj := hjs j (List.mem_cons_self _ _)
    have hrest : ∀ j1 ∈ js, i < j1 ∧ j1 < agents.length :=
      fun j1 h => hjs j1 (List.mem_cons_of_mem _ h)
    have hiL : i < agents.length := by omega
    have hgi : agents[i]? = some agents[i] := List.getElem?_eq_getElem hiL
    have hgj : agents[j]? = some agents[j] := List.getElem?_eq_getElem hj.2
    have hl := linked_of_getElem? agents range i j _ _ hgi hgj
    by_cases hw : (agents[i]).Position.Within range (agents[j]).Position = true
    · obtain ⟨s1, he, hs1, hn1, hadj1⟩ :=
        NetworkSnapshot.AddEdge_nat s i j hs (by omega) (by omega) (by omega)
      obtain ⟨s2, hr, hs2, hn2, hadj2⟩ := ih s1 hs1 (by rw [hn1, hn]) hrest
      refine ⟨s2, ?_, hs2, hn2, ?_⟩
      · simp only [CurrentNetwork.row, hgi, hgj, hw, if_true, he]
        exact hr
      · intro v k
        rw [hadj2 v k, hadj1 v k]
        constructor
        · rintro ((h | h) | ⟨j1, hj1, h⟩)
          · exact Or.inl h
          · exact Or.inr ⟨j, List.mem_cons_self _ _, by rw [hl]; exact hw, h⟩
          · exact Or.inr ⟨j1, List.mem_cons_of_mem _ hj1, h⟩
        · rintro (h | ⟨j1, hj1, h⟩)
          · exact Or.inl (Or.inl h)
          · rcases List.mem_cons.mp hj1 with e | hm
            · subst e
              exact Or.inl (Or.inr h.2)
            · exact Or.inr ⟨j1, hm, h⟩
    · obtain ⟨s2, hr, hs2, hn2, hadj2⟩ := ih s hs hn hrest
      refine ⟨s2, ?_, hs2, hn2, ?_⟩
      · simp only [CurrentNetwork.row, hgi, hgj, hw]
        exact hr
      · intro v k
        rw [hadj2 v k]
        constructor
        · rintro (h | ⟨j1, hj1, h⟩)
          · exact Or.inl h
          · exact Or.inr ⟨j1, List.mem_cons_of_mem _ hj1, h⟩
        · rintro (h | ⟨j1, hj1, h⟩)
          · exact Or.inl h
          · rcases List.mem_cons.mp hj1 with e | hm
            · subst e
              rw [hl] at h
              exact absurd h.1 hw
            · exact Or.inr ⟨j1, hm, h⟩

/-- The outer loop of `CurrentNetwork` never throws and adds exactly the linked pairs
`(i, j)` with `i` among the visited values and `i < j < n`. -/
theorem CurrentNetwork.rows_spec (agents : List (Agent R)) (range : R) :
    ∀ (is : List Nat) (s : NetworkSnapshot), s.WF → s.num_vertices = agents.length →
      (∀ i ∈ is, i < agents.length) →
      ∃ s1, CurrentNetwork.rows agents range is s = .ok s1 ∧ s1.WF ∧
        s1.num_vertices = agents.length ∧
        ∀ (v : Nat) (k : Int), k ∈ s1.adj v ↔
          (k ∈ s.adj v ∨ ∃ i ∈ is, ∃ j, i < j ∧ j < agents.length ∧
            linked agents range i j = true ∧ ((v = i ∧ k = j) ∨ (v = j ∧ k = i))) := by
  intro is
  induction is with
  | nil =>
    intro s hs hn _
    exact ⟨s, rfl, hs, hn, by simp⟩
  | cons i is ih =>
    intro s hs hn his
    have hi := his i (List.mem_cons_self _ _)
    have hrest : ∀ i1 ∈ is, i1 < agents.length :=
      fun i1 h => his i1 (List.mem_cons_of_mem _ h)
    have hjs : ∀ j ∈ List.range' (i + 1) (agents.length - (i + 1)),
        i < j ∧ j < agents.length := by
      intro j hj
      rw [List.mem_range'_1] at hj
      omega
    obtain ⟨s1, hr, hs1, hn1, hadj1⟩ := CurrentNetwork.row_spec agents range i _ s hs hn hjs
    obtain ⟨s2, hr2, hs2, hn2, hadj2⟩ := ih s1 hs1 hn1 hrest
    refine ⟨s2, ?_, hs2, hn2, ?_⟩
    · simp only [CurrentNetwork.rows, hr]
      exact hr2
    · intro v k
      rw [hadj2 v k, hadj1 v k]
      constructor
      · rintro ((h | ⟨j, hj, h⟩) | ⟨i1, hi1, h⟩)
        · exact Or.inl h
        · have := hjs j hj
          exact Or.inr ⟨i, List.mem_cons_self _ _, j, this.1, this.2, h⟩
        · exact Or.inr ⟨i1, List.mem_cons_of_mem _ hi1, h⟩
      · rintro (h | ⟨i1, hi1, j, hlt, hjn, h⟩)
        · exact Or.inl (Or.inl h)
        · rcases List.mem_cons.mp hi1 with e | hm
          · subst e
            refine Or.inl (Or.inr ⟨j, ?_, h⟩)
            rw [List.mem_range'_1]
            omega
          · exact Or.inr ⟨i1, hm, j, hlt, hjn, h⟩

/-- The method `CurrentNetwork` returns a snapshot over `n = _agents.size()` vertices whose
adjacency sets hold exactly the linked pairs `i < j < n`, both ways round. -/
theorem CurrentNetwork_spec (m : Model R G) :
    ∃ net, m.CurrentNetwork = .ok net ∧ net.WF ∧ net.num_vertices = m.agents.length ∧
      ∀ (v : Nat) (k : Int), k ∈ net.adj v ↔
        ∃ i j, i < j ∧ j < m.agents.length ∧
          linked m.agents m.communication_range i j = true ∧
          ((v = i ∧ k = j) ∨ (v = j ∧ k = i)) := by
  have hwf : (⟨(m.agents.length : Int), List.replicate m.agents.length ∅⟩ :
      NetworkSnapshot).WF := by
    constructor
    · simp
    · simp
  obtain ⟨s1, hr, hs1, hn1, hadj⟩ :=
    CurrentNetwork.rows_spec m.agents m.communication_range (List.range m.agents.length)
      ⟨(m.agents.length : Int), List.replicate m.agents.length ∅⟩ hwf rfl
      (fun i hi => List.mem_range.mp hi)
  refine ⟨s1, ?_, hs1, hn1, ?_⟩
  · simp only [CurrentNetwork, NetworkSnapshot.new_nat]
    exact hr
  · intro v k
    rw [hadj v k, NetworkSnapshot.adj_new]
    constructor
    · rintro (h | ⟨i, _, j, h⟩)
      · simp at h
      · exact ⟨i, j, h⟩
    · rintro ⟨i, j, h⟩
      exact Or.inr ⟨i, List.mem_range.mpr (by omega), j, h⟩

theorem Within_comm (p q : Point R) (r : R) : p.Within r q = q.Within r p := by
  unfold Point.Within
  have h1 : (p.x - q.x) ^ 2 = (q.x - p.x) ^ 2 := by ring
  have h2 : (p.y - q.y) ^ 2 = (q.y - p.y) ^ 2 := by ring
  rw [h1, h2]

theorem linked_comm (agents : List (Agent R)) (range : R) (i j : Nat) :
    linked agents range i j = linked agents range j i := by
  unfold linked
  cases hi : agents[i]? <;> cases hj : agents[j]? <;> simp [Agent.Position, Within_comm]

/-- On `n` agents and for distinct `i, j < n`, `j` is in the neighbour set of `i`
exactly when the pair is linked. -/
theorem CurrentNetwork_mem_iff (m : Model R G) (net : NetworkSnapshot)
    (hnet : m.CurrentNetwork = .ok net) (i j : Nat) (hi : i < m.agents.length)
    (hj : j < m.agents.length) (hij : i ≠ j) :
    (j : Int) ∈ net.adj i ↔ linked m.agents m.communication_range i j = true := by
  obtain ⟨net1, h1, _, _, hadj⟩ := CurrentNetwork_spec m
  rw [hnet] at h1
  cases h1
  rw [hadj i j]
  constructor
  · rintro ⟨i1, j1, _, _, hl, (⟨e1, e2⟩ | ⟨e1, e2⟩)⟩
    · have e3 : j = j1 := by exact_mod_cast e2
      rw [e1, e3]; exact hl
    · have e3 : j = i1 := by exact_mod_cast e2
      rw [e1, e3, linked_comm]; exact hl
  · intro hl
    rcases Nat.lt_or_gt_of_ne hij with h | h
    · exact ⟨i, j, h, hj, hl, Or.inl ⟨rfl, rfl⟩⟩
    · exact ⟨j, i, h, hi, by rw [linked_comm]; exact hl, Or.inr ⟨rfl, rfl⟩⟩

theorem GetNeighbors_nat (net : NetworkSnapshot) (n a : Nat) (hn : net.num_vertices = n)
    (ha : a < n) : net.GetNeighbors a = .ok (net.adj a) := by
  have : ¬ ((a : Int) < 0 ∨ (a : Int) ≥ net.num_vertices) := by omega
  simp only [NetworkSnapshot.GetNeighbors, this, if_false, Int.toNat_ofNat]

/-- C2: for distinct indices `i, j` of agents, whichever is the smaller,
`CurrentNetwork()` returns a snapshot in which `j` is a neighbour of `i` if and only
if `Within(communication_range)` holds between the two positions, that is if and only
if `0 ≤ range` and the squared distance is at most `range²`, that is if and only if
the Euclidean distance `d` (the `d ≥ 0` with `d²` the squared distance) is `≤ range`. -/
theorem CurrentNetwork_neighbor_iff (m : Model R G) (i j : Nat) (ai aj : Agent R)
    (hi : m.agents[i]? = some ai) (hj : m.agents[j]? = some aj) (hij : i ≠ j) :
    ∃ net nb, m.CurrentNetwork = .ok net ∧ net.GetNeighbors i = .ok nb ∧
      ((j : Int) ∈ nb ↔ ai.Position.Within m.communication_range aj.Position = true) ∧
      ((j : Int) ∈ nb ↔
        (0 ≤ m.communication_range ∧
          (ai.position.x - aj.position.x) ^ 2 + (ai.position.y - aj.position.y) ^ 2
            ≤ m.communication_range ^ 2)) ∧
      (∀ d : R, 0 ≤ d →
        d ^ 2 = (ai.position.x - aj.position.x) ^ 2 + (ai.position.y - aj.position.y) ^ 2 →
        ((j : Int) ∈ nb ↔ d ≤ m.communication_range)) := by
  obtain ⟨net, hnet, _, hn, _⟩ := CurrentNetwork_spec m
  have hiL : i < m.agents.length := (List.getElem?_eq_some.mp hi).1
  have hjL : j < m.agents.length := (List.getElem?_eq_some.mp hj).1
  have hmem := CurrentNetwork_mem_iff m net hnet i j hiL hjL hij
  rw [linked_of_getElem? m.agents m.communication_range i j ai aj hi hj] at hmem
  have hsq : ai.Position.Within m.communication_range aj.Position = true ↔
      (0 ≤ m.communication_range ∧
        (ai.position.x - aj.position.x) ^ 2 + (ai.position.y - aj.position.y) ^ 2
          ≤ m.communication_range ^ 2) := by
    simp [Point.Within, Agent.Position]
  refine ⟨net, net.adj i, hnet, GetNeighbors_nat net _ i hn hiL, hmem, hmem.trans hsq, ?_⟩
  intro d hd hd2
  rw [hmem, hsq, ← hd2]
  constructor
  · rintro ⟨hr, hle⟩
    exact (pow_le_pow_iff_left₀ hd hr (by norm_num)).mp hle
  · intro hle
    exact ⟨le_trans hd hle, pow_le_pow_left₀ hd hle 2⟩

/-- C2 at two agents at `(0,0)` and `(3,4)` with range 5, asked from the larger
index. -/
theorem CurrentNetwork_neighbor_iff_witness :
    ∃ net nb, Examples.pair.CurrentNetwork = .ok net ∧ net.GetNeighbors (1 : Nat) = .ok nb ∧
      (((0 : Nat) : Int) ∈ nb ↔
        (Examples.still 3 4).Position.Within Examples.pair.communication_range
          (Examples.still 0 0).Position = true) ∧
      (((0 : Nat) : Int) ∈ nb ↔
        (0 ≤ Examples.pair.communication_range ∧
          ((Examples.still 3 4).position.x - (Examples.still 0 0).position.x) ^ 2 +
            ((Examples.still 3 4).position.y - (Examples.still 0 0).position.y) ^ 2
            ≤ Examples.pair.communication_range ^ 2)) ∧
      (∀ d : ℚ, 0 ≤ d →
        d ^ 2 = ((Examples.still 3 4).position.x - (Examples.still 0 0).position.x) ^ 2 +
          ((Examples.still 3 4).position.y - (Examples.still 0 0).position.y) ^ 2 →
        (((0 : Nat) : Int) ∈ nb ↔ d ≤ Examples.pair.communication_range)) :=
  CurrentNetwork_neighbor_iff Examples.pair 1 0 (Examples.still 3 4) (Examples.still 0 0)
    rfl rfl (by decide)

end NetworkProofs

section StepProofs

variable {R : Type} [LinearOrderedField R] [FloorRing R] {G : Type}

theorem Step.length_moveAgents (cm : CMath R) (ts : TurnSchedule R) (turn : G → R × G)
    (stepd : G → Int × G) :
    ∀ (agents : List (Agent R)) (g : G),
      (Step.moveAgents cm ts turn stepd agents g).1.length = agents.length := by
  intro agents
  induction agents with
  | nil => intro g; rfl
  | cons a rest ih =>
    intro g
    simp only [Step.moveAgents, List.length_cons, ih]

theorem Step.moved_agent_states (cm : CMath R) (ts : TurnSchedule R) (m : Model R G) :
    (Step.moved cm ts m).agent_states = m.agent_states := rfl

theorem Step.moved_length (cm : CMath R) (ts : TurnSchedule R) (m : Model R G) :
    (Step.moved cm ts m).agents.length = m.agents.length := by
  simp only [Step.moved, Step.length_moveAgents]

/-- The innermost loop reads every neighbour state without leaving the vector when
the neighbours are indices of it. -/
theorem Step.neighborStates_spec (agent_states : List Int) :
    ∀ ns : List Int, (∀ n ∈ ns, 0 ≤ n ∧ n.toNat < agent_states.length) →
      Step.neighborStates agent_states ns =
        .ok (ns.map (fun n => agent_states.getD n.toNat 0)) := by
  intro ns
  induction ns with
  | nil => intro _; rfl
  | cons n ns ih =>
    intro h
    have hn := h n (List.mem_cons_self _ _)
    have hrest := ih (fun k hk => h k (List.mem_cons_of_mem _ hk))
    have hneg : ¬ n < 0 := by omega
    have hget : agent_states[n.toNat]? = some (agent_states.getD n.toNat 0) := by
      rw [List.getD_eq_getElem?_getD, List.getElem?_eq_getElem hn.2]
      rfl
    simp only [Step.neighborStates, hneg, if_false, hget, hrest, List.map_cons]

/-- The second loop of `Step` never fails on a well-formed snapshot over the agents
and writes, at every visited index, the rule applied to the old states. -/
theorem Step.update_spec (rule : Rule) (net : NetworkSnapshot) (agent_states : List Int)
    (n : Nat) (hn : net.num_vertices = n) (hs : agent_states.length = n)
    (hadj : ∀ (v : Nat) (k : Int), k ∈ net.adj v → 0 ≤ k ∧ k.toNat < n) :
    ∀ (as : List Nat) (ns : List Int), ns.length = n → (∀ a ∈ as, a < n) →
      ∃ ns1, Step.update rule net agent_states as ns = .ok ns1 ∧ ns1.length = n ∧
        ∀ b, b < n → ns1[b]? =
          if b ∈ as then
            some (rule (agent_states.getD b 0)
              (((net.adj b).sort (· ≤ ·)).map (fun k => agent_states.getD k.toNat 0)))
          else ns[b]? := by
  intro as
  induction as with
  | nil =>
    intro ns hlen _
    exact ⟨ns, rfl, hlen, by simp⟩
  | cons a as ih =>
    intro ns hlen has
    have ha := has a (List.mem_cons_self _ _)
    have hrest : ∀ b ∈ as, b < n := fun b hb => has b (List.mem_cons_of_mem _ hb)
    have hnb : ∀ k ∈ (net.adj a).sort (· ≤ ·), 0 ≤ k ∧ k.toNat < agent_states.length := by
      intro k hk
      rw [Finset.mem_sort] at hk
      rw [hs]
      exact hadj a k hk
    have hself : agent_states[a]? = some (agent_states.getD a 0) := by
      rw [List.getD_eq_getElem?_getD, List.getElem?_eq_getElem (by omega)]
      rfl
    have hlt : a < ns.length := by omega
    obtain ⟨ns1, hr, hlen1, hval⟩ := ih
      (ns.set a (rule (agent_states.getD a 0)
        (((net.adj a).sort (· ≤ ·)).map (fun k => agent_states.getD k.toNat 0))))
      (by simp [hlen]) hrest
    refine ⟨ns1, ?_, hlen1, ?_⟩
    · simp only [Step.update, GetNeighbors_nat net n a hn ha,
        Step.neighborStates_spec agent_states _ hnb, hself, hlt, if_true]
      exact hr
    · intro b hb
      rw [hval b hb]
      by_cases hba : b = a
      · subst hba
        by_cases hmem : b ∈ as
        · simp [hmem]
        · simp [hmem, List.getElem?_set, hlt]
      · by_cases hmem : b ∈ as
        · simp [hmem]
        · have hab : ¬ a = b := fun e => hba e.symm
          simp [hmem, hba, List.getElem?_set, hab]

/-- The value `Step` writes for agent `a`: the rule applied to the old state of `a`
and to the old states of its neighbours in `net`, in increasing order of index. -/
theorem Step_ok (cm : CMath R) (ts : TurnSchedule R) (rule : Rule) (m : Model R G)
    (hlen : m.agents.length = m.agent_states.length) :
    ∃ net ns1, (Step.moved cm ts m).CurrentNetwork = .ok net ∧
      net.num_vertices = (m.agent_states.length : Nat) ∧
      (∀ (v : Nat) (k : Int), k ∈ net.adj v → 0 ≤ k ∧ k.toNat < m.agent_states.length) ∧
      Step cm ts rule m = (.ok (), Step.commit (Step.moved cm ts m) ns1 net) ∧
      ns1.length = m.agent_states.length ∧
      ∀ a, a < m.agent_states.length →
        ns1[a]? = some (rule (m.agent_states.getD a 0)
          (((net.adj a).sort (· ≤ ·)).map (fun k => m.agent_states.getD k.toNat 0))) := by
  obtain ⟨net, hnet, _, hn, hadj⟩ := CurrentNetwork_spec (Step.moved cm ts m)
  rw [Step.moved_length] at hn
  have hn2 : net.num_vertices = (m.agent_states.length : Nat) := by rw [hn, hlen]
  have hrange : ∀ (v : Nat) (k : Int), k ∈ net.adj v →
      0 ≤ k ∧ k.toNat < m.agent_states.length := by
    intro v k hk
    obtain ⟨i, j, hij, hj, _, h⟩ := (hadj v k).mp hk
    rw [Step.moved_length] at hj
    rcases h with ⟨_, e⟩ | ⟨_, e⟩ <;> subst e <;> constructor <;> simp <;> omega
  obtain ⟨ns1, hup, hlen1, hval⟩ := Step.update_spec rule net m.agent_states
    m.agent_states.length hn2 rfl hrange (List.range m.agent_states.length)
    (List.replicate m.agents.length 0) (by simp [hlen]) (fun a ha => List.mem_range.mp ha)
  have hstep : Step cm ts rule m = (.ok (), Step.commit (Step.moved cm ts m) ns1 net) := by
    simp only [Step, hnet, Step.moved_agent_states, Step.moved_length, hup]
  refine ⟨net, ns1, hnet, hn2, hrange, hstep, hlen1, ?_⟩
  intro a ha
  have := hval a ha
  rw [if_pos (List.mem_range.mpr ha)] at this
  exact this

/-- C1: `Step(rule)` on a model with as many agents as states succeeds, and the new
state of every agent `a` is `rule(old_states[a], [old_states[n] for n in
neighbors(a)])`, with `old_states` the state vector before the call and
`neighbors(a)` the neighbour set of `a` (visited in increasing order) in the network
built from the positions after the movement loop; every neighbour is an index of the
old vector, and the agents afterwards are the moved ones. -/
theorem Step_synchronous (cm : CMath R) (ts : TurnSchedule R) (rule : Rule) (m : Model R G)
    (hlen : m.agents.length = m.agent_states.length) :
    ∃ net m1, (Step.moved cm ts m).CurrentNetwork = .ok net ∧
      Step cm ts rule m = (.ok (), m1) ∧
      m1.agents = (Step.moved cm ts m).agents ∧
      m1.agent_states.length = m.agent_states.length ∧
      ∀ a, a < m.agent_states.length →
        ∃ nb, net.GetNeighbors a = .ok nb ∧
          (∀ k ∈ nb, 0 ≤ k ∧ k.toNat < m.agent_states.length) ∧
          m1.agent_states[a]? =
            some (rule (m.agent_states.getD a 0)
              ((nb.sort (· ≤ ·)).map (fun k => m.agent_states.getD k.toNat 0))) := by
  obtain ⟨net, ns1, hnet, hn, hrange, hstep, hlen1, hval⟩ := Step_ok cm ts rule m hlen
  exact ⟨net, _, hnet, hstep, rfl, hlen1, fun a ha =>
    ⟨net.adj a, GetNeighbors_nat net _ a hn ha, hrange a, hval a ha⟩⟩

/-- C1 at the two linked agents of `Examples.pair` under the majority rule. -/
theorem Step_synchronous_witness :
    ∃ net m1, (Step.moved Examples.cm Examples.ts Examples.pair).CurrentNetwork = .ok net ∧
      Step Examples.cm Examples.ts MajorityRule.Apply Examples.pair = (.ok (), m1) ∧
      m1.agents = (Step.moved Examples.cm Examples.ts Examples.pair).agents ∧
      m1.agent_states.length = Examples.pair.agent_states.length ∧
      ∀ a, a < Examples.pair.agent_states.length →
        ∃ nb, net.GetNeighbors a = .ok nb ∧
          (∀ k ∈ nb, 0 ≤ k ∧ k.toNat < Examples.pair.agent_states.length) ∧
          m1.agent_states[a]? =
            some (MajorityRule.Apply (Examples.pair.agent_states.getD a 0)
              ((nb.sort (· ≤ ·)).map (fun k => Examples.pair.agent_states.getD k.toNat 0))) :=
  Step_synchronous Examples.cm Examples.ts MajorityRule.Apply Examples.pair rfl

/-! ### The identity rule -/

theorem Step.commit_agent_states (m1 : Model R G) (ns : List Int) (net : NetworkSnapshot) :
    (Step.commit m1 ns net).agent_states = ns := rfl

theorem Step.commit_agents (m1 : Model R G) (ns : List Int) (net : NetworkSnapshot) :
    (Step.commit m1 ns net).agents = m1.agents := rfl

theorem CurrentDensity_congr (m1 m2 : Model R G) (h : m1.agent_states = m2.agent_states) :
    m1.CurrentDensity = m2.CurrentDensity := by
  simp only [CurrentDensity, h]

/-- One step with the identity rule succeeds and keeps the state vector. -/
theorem Step_Identity (cm : CMath R) (ts : TurnSchedule R) (m : Model R G)
    (hlen : m.agents.length = m.agent_states.length) :
    ∃ m1, Step cm ts Identity.Apply m = (.ok (), m1) ∧
      m1.agent_states = m.agent_states ∧ m1.agents.length = m.agents.length := by
  obtain ⟨net, ns1, _, _, _, hstep, hlen1, hval⟩ := Step_ok cm ts Identity.Apply m hlen
  refine ⟨_, hstep, ?_, ?_⟩
  · rw [Step.commit_agent_states]
    apply List.ext_getElem? 
    intro a
    by_cases ha : a < m.agent_states.length
    · rw [hval a ha, List.getD_eq_getElem?_getD, List.getElem?_eq_getElem ha]
      rfl
    · rw [List.getElem?_eq_none (by omega), List.getElem?_eq_none (by omega)]
  · rw [Step.commit_agents, Step.moved_length]

theorem run_Identity (cm : CMath R) (ts : TurnSchedule R) :
    ∀ (k : Nat) (m : Model R G), m.agents.length = m.agent_states.length →
      ∃ mk, run cm ts Identity.Apply k m = (.ok (), mk) ∧
        mk.agent_states = m.agent_states ∧ mk.agents.length = m.agents.length := by
  intro k
  induction k with
  | zero => intro m _; exact ⟨m, rfl, rfl, rfl⟩
  | succ k ih =>
    intro m hlen
    obtain ⟨m1, h1, hs1, ha1⟩ := Step_Identity cm ts m hlen
    obtain ⟨mk, hk, hsk, hak⟩ := ih m1 (by rw [ha1, hs1, hlen])
    refine ⟨mk, ?_, by rw [hsk, hs1], by rw [hak, ha1]⟩
    simp only [run, h1]
    exact hk

/-- C7: for every model with as many agents as states and every `k ≥ 0`, `k` calls
of `Step` with the Identity rule all succeed, the state vector afterwards is the
initial one, and `CurrentDensity()` has its initial value. -/
theorem run_Identity_invariant (cm : CMath R) (ts : TurnSchedule R) (k : Nat) (m : Model R G)
    (hlen : m.agents.length = m.agent_states.length) :
    ∃ mk, run cm ts Identity.Apply k m = (.ok (), mk) ∧
      mk.agent_states = m.agent_states ∧ mk.CurrentDensity = m.CurrentDensity := by
  obtain ⟨mk, hk, hs, _⟩ := run_Identity cm ts k m hlen
  exact ⟨mk, hk, hs, CurrentDensity_congr mk m hs⟩

/-- C7 at `Examples.pair` and 100 steps, the count of the test. -/
theorem run_Identity_invariant_witness :
    ∃ mk, run Examples.cm Examples.ts Identity.Apply 100 Examples.pair = (.ok (), mk) ∧
      mk.agent_states = Examples.pair.agent_states ∧
      mk.CurrentDensity = Examples.pair.CurrentDensity :=
  run_Identity_invariant Examples.cm Examples.ts 100 Examples.pair rfl

/-! ### The majority rule on a complete graph -/

theorem map_getD_range (l : List Int) :
    (List.range l.length).map (fun j => l.getD j 0) = l := by
  apply List.ext_getElem
  · simp
  · intro i h1 h2
    simp [List.getD_eq_getElem?_getD, List.getElem?_eq_getElem h2]

/-- When the neighbours of `a` are all the other indices, the votes the rule sees are
a rearrangement of the whole state vector. -/
theorem votes_perm (states : List Int) (a : Nat) (ha : a < states.length) (nb : Finset Int)
    (hnb : ∀ k : Int, k ∈ nb ↔ ∃ j : Nat, j < states.length ∧ j ≠ a ∧ k = j) :
    (states.getD a 0 :: (nb.sort (· ≤ ·)).map (fun k => states.getD k.toNat 0)).Perm
      states := by
  have hnd : (((a : Int)) :: nb.sort (· ≤ ·)).Nodup := by
    rw [List.nodup_cons]
    refine ⟨?_, Finset.sort_nodup _ _⟩
    rw [Finset.mem_sort, hnb]
    rintro ⟨j, _, hja, e⟩
    exact hja (by exact_mod_cast e.symm)
  have hnd2 : ((List.range states.length).map (fun j : Nat => (j : Int))).Nodup :=
    (List.nodup_range _).map (fun x y h => by exact_mod_cast h)
  have hperm : (((a : Int)) :: nb.sort (· ≤ ·)).Perm
      ((List.range states.length).map (fun j : Nat => (j : Int))) := by
    rw [List.perm_ext_iff_of_nodup hnd hnd2]
    intro k
    simp only [List.mem_cons, Finset.mem_sort, hnb, List.mem_map, List.mem_range]
    constructor
    · rintro (e | ⟨j, hj, _, e⟩)
      · exact ⟨a, ha, e.symm⟩
      · exact ⟨j, hj, e.symm⟩
    · rintro ⟨j, hj, e⟩
      by_cases hja : j = a
      · left; rw [← e, hja]
      · right; exact ⟨j, hj, hja, e.symm⟩
  have h2 := hperm.map (fun k : Int => states.getD k.toNat 0)
  simp only [List.map_cons, Int.toNat_ofNat, List.map_map] at h2
  have h3 : ((fun k : Int => states.getD k.toNat 0) ∘ fun j : Nat => (j : Int)) =
      fun j => states.getD j 0 := by
    funext j; simp
  rw [h3, map_getD_range] at h2
  exact h2

theorem MajorityRule_of_perm (self_state : Int) (neighbor_states states : List Int)
    (hp : (self_state :: neighbor_states).Perm states)
    (hmaj : states.count 0 < states.count 1) :
    MajorityRule.Apply self_state neighbor_states = 1 := by
  have h1 := hp.count_eq 1
  have h0 := hp.count_eq 0
  simp only [MajorityRule.Apply]
  rw [h1, h0, if_pos hmaj]

theorem CurrentDensity_replicate_one (m : Model R G) (n : Nat) (hn : 0 < n)
    (h : m.agent_states = List.replicate n 1) : m.CurrentDensity = 1 := by
  have hne : (n : R) ≠ 0 := by exact_mod_cast hn.ne'
  simp only [CurrentDensity, h, List.sum_replicate, List.length_replicate]
  simp [hne]

/-- C6: on a model with as many agents as states in which, after the movement loop of
the step, every two distinct agents are within `communication_range` of each other,
and in which more agents have state 1 than state 0 before the step, one
`Step(majority_rule)` succeeds and leaves every agent in state 1, and
`CurrentDensity()` is then exactly 1. -/
theorem Step_majority_fully_connected (cm : CMath R) (ts : TurnSchedule R) (m : Model R G)
    (hlen : m.agents.length = m.agent_states.length)
    (hfull : ∀ (i j : Nat) (ai aj : Agent R),
      (Step.moved cm ts m).agents[i]? = some ai → (Step.moved cm ts m).agents[j]? = some aj →
      i ≠ j → ai.Position.Within m.communication_range aj.Position = true)
    (hmaj : m.agent_states.count 0 < m.agent_states.count 1) :
    ∃ m1, Step cm ts MajorityRule.Apply m = (.ok (), m1) ∧
      m1.agent_states = List.replicate m.agent_states.length 1 ∧
      (∀ a, a < m1.agent_states.length → m1.agent_states[a]? = some 1) ∧
      m1.CurrentDensity = 1 := by
  obtain ⟨net, ns1, hnet, _, _, hstep, hlen1, hval⟩ :=
    Step_ok cm ts MajorityRule.Apply m hlen
  obtain ⟨net1, hnet1, _, _, hadj⟩ := CurrentNetwork_spec (Step.moved cm ts m)
  rw [hnet] at hnet1
  cases hnet1
  have hmovedlen := Step.moved_length cm ts m
  have hlinked : ∀ i j, i < j → j < m.agent_states.length →
      linked (Step.moved cm ts m).agents (Step.moved cm ts m).communication_range i j
        = true := by
    intro i j hij hj
    have hiL : i < (Step.moved cm ts m).agents.length := by omega
    have hjL : j < (Step.moved cm ts m).agents.length := by omega
    rw [linked_of_getElem? _ _ i j _ _ (List.getElem?_eq_getElem hiL)
      (List.getElem?_eq_getElem hjL)]
    exact hfull i j _ _ (List.getElem?_eq_getElem hiL) (List.getElem?_eq_getElem hjL)
      (by omega)
  have hnb : ∀ (a : Nat), a < m.agent_states.length → ∀ (k : Int), k ∈ net.adj a ↔
      ∃ j : Nat, j < m.agent_states.length ∧ j ≠ a ∧ k = j := by
    intro a ha k
    rw [hadj a k]
    constructor
    · rintro ⟨i, j, hij, hj, _, (⟨e1, e2⟩ | ⟨e1, e2⟩)⟩
      · exact ⟨j, by omega, by omega, e2⟩
      · exact ⟨i, by omega, by omega, e2⟩
    · rintro ⟨j, hj, hja, e⟩
      rcases Nat.lt_or_gt_of_ne hja with h | h
      · exact ⟨j, a, h, by omega, hlinked j a h (by omega), Or.inr ⟨rfl, e⟩⟩
      · refine ⟨a, j, h, by omega, hlinked a j h hj, Or.inl ⟨rfl, e⟩⟩
  have hns : ns1 = List.replicate m.agent_states.length 1 := by
    apply List.ext_getElem?
    intro a
    by_cases ha : a < m.agent_states.length
    · rw [hval a ha, List.getElem?_replicate, if_pos ha,
        MajorityRule_of_perm _ _ _ (votes_perm m.agent_states a ha _ (hnb a ha)) hmaj]
    · rw [List.getElem?_eq_none (by omega), List.getElem?_eq_none (by simp; omega)]
  have hpos : 0 < m.agent_states.length := by
    have := List.count_le_length (1 : Int) m.agent_states
    omega
  refine ⟨_, hstep, ?_, ?_, ?_⟩
  · rw [Step.commit_agent_states, hns]
  · intro a ha
    rw [Step.commit_agent_states, hns] at ha ⊢
    rw [List.getElem?_replicate, if_pos (by simpa using ha)]
  · exact CurrentDensity_replicate_one _ _ hpos (by rw [Step.commit_agent_states, hns])

/-! ### Construction and runs always return -/

theorem construct.populate_length (cm : CMath R) (ts : TurnSchedule R) (rs : RandomSource R G)
    (arena_size initial_density : R) :
    ∀ (k : Nat) (g : G),
      (construct.populate cm ts rs arena_size initial_density k g).1.length = k ∧
      (construct.populate cm ts rs arena_size initial_density k g).2.1.length = k := by
  intro k
  induction k with
  | zero => intro g; exact ⟨rfl, rfl⟩
  | succ k ih =>
    intro g
    simp only [construct.populate, List.length_cons]
    exact ⟨by rw [(ih _).1], by rw [(ih _).2]⟩

/-- The constructor returns a model, with `num_agents` agents and as many states. -/
theorem construct_ok (cm : CMath R) (ts : TurnSchedule R) (rs : RandomSource R G)
    (arena_size : R) (num_agents : Int) (communication_range : R) (seed : Int)
    (initial_density : R) :
    ∃ m, construct cm ts rs arena_size num_agents communication_range seed initial_density
        = .ok m ∧
      m.agents.length = num_agents.toNat ∧ m.agent_states.length = num_agents.toNat := by
  obtain ⟨h1, h2⟩ := construct.populate_length cm ts rs arena_size initial_density
    num_agents.toNat (rs.seed seed)
  obtain ⟨net, hnet, _⟩ := CurrentNetwork_spec
    (construct.initial cm ts rs arena_size num_agents communication_range seed initial_density)
  refine ⟨(construct.initial cm ts rs arena_size num_agents communication_range seed
    initial_density).recordState net, ?_, ?_, ?_⟩
  · simp only [construct, hnet]
  · exact h1
  · exact h2

/-- Any number of steps with any rule succeeds on a model with as many agents as
states. -/
theorem run_ok (cm : CMath R) (ts : TurnSchedule R) (rule : Rule) :
    ∀ (k : Nat) (m : Model R G), m.agents.length = m.agent_states.length →
      ∃ mk, run cm ts rule k m = (.ok (), mk) ∧
        mk.agents.length = mk.agent_states.length := by
  intro k
  induction k with
  | zero => intro m h; exact ⟨m, rfl, h⟩
  | succ k ih =>
    intro m hlen
    obtain ⟨net, ns1, _, _, _, hstep, hlen1, _⟩ := Step_ok cm ts rule m hlen
    obtain ⟨mk, hk, hinv⟩ := ih (Step.commit (Step.moved cm ts m) ns1 net)
      (by rw [Step.commit_agents, Step.commit_agent_states, Step.moved_length, hlen1, hlen])
    refine ⟨mk, ?_, hinv⟩
    simp only [run, hstep]
    exact hk

end StepProofs

end Model

namespace Examples

/-- An agent at rest inside the arena stays where it is. -/
theorem Step_still (x y : ℚ) (hx1 : -50 ≤ x) (hx2 : x ≤ 50) (hy1 : -50 ≤ y) (hy2 : y ≤ 50) :
    (still x y).Step cm = still x y := by
  have h1 : ¬ x < -100 / 2 := by norm_num; linarith
  have h2 : ¬ x > 100 / 2 := by norm_num; linarith
  have h3 : ¬ y < -100 / 2 := by norm_num; linarith
  have h4 : ¬ y > 100 / 2 := by norm_num; linarith
  simp [Agent.Step, Agent.tentative, still, Agent.new, Agent.IsOutOfBounds, Point.GetX,
    Point.GetY, h1, h2, h3, h4]

theorem moved_trio : (Model.Step.moved cm ts trio).agents = trio.agents := by
  have e1 := Step_still 0 0 (by norm_num) (by norm_num) (by norm_num) (by norm_num)
  have e2 := Step_still 3 4 (by norm_num) (by norm_num) (by norm_num) (by norm_num)
  have e3 := Step_still 3 0 (by norm_num) (by norm_num) (by norm_num) (by norm_num)
  simp only [Model.Step.moved, Model.Step.moveAgents, Model.Step.moveAgent, trio, e1, e2, e3]
  rfl

theorem trio_within (i j : Nat) (ai aj : Agent ℚ)
    (hi : (Model.Step.moved cm ts trio).agents[i]? = some ai)
    (hj : (Model.Step.moved cm ts trio).agents[j]? = some aj) :
    ai.Position.Within trio.communication_range aj.Position = true := by
  rw [moved_trio] at hi hj
  have hi3 : i < 3 := (List.getElem?_eq_some.mp hi).1
  have hj3 : j < 3 := (List.getElem?_eq_some.mp hj).1
  interval_cases i <;> interval_cases j <;>
    simp [trio] at hi hj <;> subst hi <;> subst hj <;>
    simp [Point.Within, still, Agent.new, Agent.Position, trio] <;> norm_num

end Examples

namespace Model

/-- C6 at `Examples.trio`: states `[1, 0, 1]` on three mutually linked agents. -/
theorem Step_majority_fully_connected_witness :
    ∃ m1, Step Examples.cm Examples.ts MajorityRule.Apply Examples.trio = (.ok (), m1) ∧
      m1.agent_states = List.replicate Examples.trio.agent_states.length 1 ∧
      (∀ a, a < m1.agent_states.length → m1.agent_states[a]? = some 1) ∧
      m1.CurrentDensity = 1 :=
  Step_majority_fully_connected Examples.cm Examples.ts Examples.trio rfl
    (fun i j ai aj hi hj _ => Examples.trio_within i j ai aj hi hj) (by decide)

end Model

/-! ### Rules -/

/-- C5: `MajorityRule.Apply(self_state, neighbor_states)` returns 1 when the ones
among `self_state` and `neighbor_states` strictly outnumber the zeros, and 0 when the
zeros strictly outnumber the ones (for every input, in particular over `{0,1}`). -/
theorem MajorityRule.Apply_spec (self_state : Int) (neighbor_states : List Int) :
    ((self_state :: neighbor_states).count 0 < (self_state :: neighbor_states).count 1 →
      MajorityRule.Apply self_state neighbor_states = 1) ∧
    ((self_state :: neighbor_states).count 1 < (self_state :: neighbor_states).count 0 →
      MajorityRule.Apply self_state neighbor_states = 0) := by
  constructor
  · intro h
    simp only [MajorityRule.Apply]
    rw [if_pos h]
  · intro h
    simp only [MajorityRule.Apply]
    rw [if_neg (by omega)]

/-- C5 on the vectors of `slimMajorityWithSelf`: `Apply(1, {0,1,0,1})` is 1 and
`Apply(0, {0,1,0,1})` is 0. -/
theorem MajorityRule.Apply_spec_witness :
    MajorityRule.Apply 1 [0, 1, 0, 1] = 1 ∧ MajorityRule.Apply 0 [0, 1, 0, 1] = 0 :=
  ⟨(MajorityRule.Apply_spec 1 [0, 1, 0, 1]).1 (by decide),
    (MajorityRule.Apply_spec 0 [0, 1, 0, 1]).2 (by decide)⟩

/-! ### Headings and the reflection of an agent -/

section AgentProofs

variable {R : Type} [LinearOrderedField R] [FloorRing R]

namespace Heading

/-- Angles that differ by whole turns normalise to the same value. -/
theorem normalize_add_turns (cm : CMath R) (hpi : 0 < cm.M_PI) (a : R) (k : Int) :
    normalize cm (a + (k : R) * (2 * cm.M_PI)) = normalize cm a := by
  have hT : (2 * cm.M_PI) ≠ 0 := by positivity
  unfold normalize
  have h : (a + (k : R) * (2 * cm.M_PI)) / (2 * cm.M_PI) = a / (2 * cm.M_PI) + (k : R) := by
    field_simp
  rw [h, Int.floor_add_int]
  push_cast
  ring

theorem ofRadians_add_turns (cm : CMath R) (hpi : 0 < cm.M_PI) (a : R) (k : Int) :
    ofRadians cm (a + (k : R) * (2 * cm.M_PI)) = ofRadians cm a := by
  simp only [ofRadians, normalize_add_turns cm hpi]

/-- Subtraction of headings is subtraction of angles, up to whole turns. -/
theorem sub_ofRadians (cm : CMath R) (hpi : 0 < cm.M_PI) (a b : R) :
    sub cm (ofRadians cm a) (ofRadians cm b) = ofRadians cm (a - b) := by
  have h : (ofRadians cm a).radians - (ofRadians cm b).radians =
      (a - b) + ((⌊b / (2 * cm.M_PI)⌋ - ⌊a / (2 * cm.M_PI)⌋ : Int) : R) * (2 * cm.M_PI) := by
    simp only [ofRadians, normalize]
    push_cast
    ring
  unfold sub
  rw [h, ofRadians_add_turns cm hpi]

/-- Addition of headings is addition of angles, up to whole turns. -/
theorem add_ofRadians (cm : CMath R) (hpi : 0 < cm.M_PI) (a b : R) :
    add cm (ofRadians cm a) (ofRadians cm b) = ofRadians cm (a + b) := by
  have h : (ofRadians cm a).radians + (ofRadians cm b).radians =
      (a + b) + ((-⌊a / (2 * cm.M_PI)⌋ - ⌊b / (2 * cm.M_PI)⌋ : Int) : R) * (2 * cm.M_PI) := by
    simp only [ofRadians, normalize]
    push_cast
    ring
  unfold add
  rw [h, ofRadians_add_turns cm hpi]

/-- Mirroring in an x-wall turns a heading along the x axis by a half turn. -/
theorem mirror_x_perpendicular (cm : CMath R) (hpi : 0 < cm.M_PI) (h : Heading R)
    (hh : h = ofRadians cm 0 ∨ h = ofRadians cm cm.M_PI) :
    sub cm (ofRadians cm cm.M_PI) h = add cm h (ofRadians cm cm.M_PI) := by
  rcases hh with e | e <;> subst e <;> rw [sub_ofRadians cm hpi, add_ofRadians cm hpi]
  · congr 1; ring
  · have := ofRadians_add_turns cm hpi (cm.M_PI - cm.M_PI) 1
    rw [← this]
    congr 1; push_cast; ring

/-- Mirroring in a y-wall turns a heading along the y axis by a half turn. -/
theorem mirror_y_perpendicular (cm : CMath R) (hpi : 0 < cm.M_PI) (h : Heading R)
    (hh : h = ofRadians cm (cm.M_PI / 2) ∨ h = ofRadians cm (-(cm.M_PI / 2))) :
    sub cm (ofRadians cm (2 * cm.M_PI)) h = add cm h (ofRadians cm cm.M_PI) := by
  rcases hh with e | e <;> subst e <;> rw [sub_ofRadians cm hpi, add_ofRadians cm hpi]
  · congr 1; ring
  · have := ofRadians_add_turns cm hpi (-(cm.M_PI / 2) + cm.M_PI) 1
    rw [← this]
    congr 1; push_cast; ring

end Heading

namespace Agent

theorem Step_of_out (cm : CMath R) (a : Agent R) (h : a.IsOutOfBounds (a.tentative cm) = true) :
    a.Step cm = { (a.Reflect cm (a.tentative cm)).2 with
      position := (a.Reflect cm (a.tentative cm)).1 } := by
  simp only [Step, h, if_true]

/-- C4: let the tentative position of an agent in an arena of positive size overshoot
exactly one wall by `D > 0`, the other coordinate staying inside.  Then `Step()` puts
the crossed coordinate at distance `D` inside that wall (`arena/2 - D`, resp.
`-arena/2 + D`), keeps the other coordinate at its tentative value, and sets the
heading, once, to `Heading(M_PI) - heading` for an x-wall and to
`Heading(2*M_PI) - heading` for a y-wall; for a heading along the crossed axis (`0` or
`M_PI` for an x-wall, `M_PI/2` or `-M_PI/2` for a y-wall) that is the old heading plus
`Heading(M_PI)`. -/
theorem Step_reflect_one_wall (cm : CMath R) (a : Agent R) (D : R) (hD : 0 < D)
    (harena : 0 < a.arena_size) (hpi : 0 < cm.M_PI) :
    ((a.tentative cm).x = a.arena_size / 2 + D →
      -(a.arena_size / 2) ≤ (a.tentative cm).y → (a.tentative cm).y ≤ a.arena_size / 2 →
      (a.Step cm).position = ⟨a.arena_size / 2 - D, (a.tentative cm).y⟩ ∧
      (a.Step cm).heading = Heading.sub cm (Heading.ofRadians cm cm.M_PI) a.heading ∧
      (a.heading = Heading.ofRadians cm 0 ∨ a.heading = Heading.ofRadians cm cm.M_PI →
        (a.Step cm).heading = Heading.add cm a.heading (Heading.ofRadians cm cm.M_PI))) ∧
    ((a.tentative cm).x = -(a.arena_size / 2) - D →
      -(a.arena_size / 2) ≤ (a.tentative cm).y → (a.tentative cm).y ≤ a.arena_size / 2 →
      (a.Step cm).position = ⟨-(a.arena_size / 2) + D, (a.tentative cm).y⟩ ∧
      (a.Step cm).heading = Heading.sub cm (Heading.ofRadians cm cm.M_PI) a.heading ∧
      (a.heading = Heading.ofRadians cm 0 ∨ a.heading = Heading.ofRadians cm cm.M_PI →
        (a.Step cm).heading = Heading.add cm a.heading (Heading.ofRadians cm cm.M_PI))) ∧
    ((a.tentative cm).y = a.arena_size / 2 + D →
      -(a.arena_size / 2) ≤ (a.tentative cm).x → (a.tentative cm).x ≤ a.arena_size / 2 →
      (a.Step cm).position = ⟨(a.tentative cm).x, a.arena_size / 2 - D⟩ ∧
      (a.Step cm).heading = Heading.sub cm (Heading.ofRadians cm (2 * cm.M_PI)) a.heading ∧
      (a.heading = Heading.ofRadians cm (cm.M_PI / 2) ∨
          a.heading = Heading.ofRadians cm (-(cm.M_PI / 2)) →
        (a.Step cm).heading = Heading.add cm a.heading (Heading.ofRadians cm cm.M_PI))) ∧
    ((a.tentative cm).y = -(a.arena_size / 2) - D →
      -(a.arena_size / 2) ≤ (a.tentative cm).x → (a.tentative cm).x ≤ a.arena_size / 2 →
      (a.Step cm).position = ⟨(a.tentative cm).x, -(a.arena_size / 2) + D⟩ ∧
      (a.Step cm).heading = Heading.sub cm (Heading.ofRadians cm (2 * cm.M_PI)) a.heading ∧
      (a.heading = Heading.ofRadians cm (cm.M_PI / 2) ∨
          a.heading = Heading.ofRadians cm (-(cm.M_PI / 2)) →
        (a.Step cm).heading = Heading.add cm a.heading (Heading.ofRadians cm cm.M_PI))) := by
  refine ⟨?_, ?_, ?_, ?_⟩
  · intro hx hy1 hy2
    have c1 : (a.tentative cm).x > a.arena_size / 2 := by rw [hx]; linarith
    have c3 : ¬ (a.tentative cm).y > a.arena_size / 2 := not_lt.mpr hy2
    have c4 : ¬ (a.tentative cm).y < (-a.arena_size) / 2 := by
      rw [neg_div]; exact not_lt.mpr hy1
    have hout : a.IsOutOfBounds (a.tentative cm) = true := by
      simp [IsOutOfBounds, Point.GetX, c1]
    have hhead : (a.Step cm).heading =
        Heading.sub cm (Heading.ofRadians cm cm.M_PI) a.heading := by
      rw [Step_of_out cm a hout]
      simp [Reflect, ReflectX, ReflectY, Point.GetX, Point.GetY, c1, c3, c4]
    refine ⟨?_, hhead, fun hh => ?_⟩
    · rw [Step_of_out cm a hout]
      simp [Reflect, ReflectX, ReflectY, Point.GetX, Point.GetY, c1, c3, c4]
      rw [hx]; ring
    · rw [hhead]; exact Heading.mirror_x_perpendicular cm hpi _ hh
  · intro hx hy1 hy2
    have c1 : ¬ (a.tentative cm).x > a.arena_size / 2 := by rw [hx]; linarith
    have c2 : (a.tentative cm).x < (-a.arena_size) / 2 := by rw [hx, neg_div]; linarith
    have c3 : ¬ (a.tentative cm).y > a.arena_size / 2 := not_lt.mpr hy2
    have c4 : ¬ (a.tentative cm).y < (-a.arena_size) / 2 := by
      rw [neg_div]; exact not_lt.mpr hy1
    have hout : a.IsOutOfBounds (a.tentative cm) = true := by
      simp [IsOutOfBounds, Point.GetX, c2]
    have hhead : (a.Step cm).heading =
        Heading.sub cm (Heading.ofRadians cm cm.M_PI) a.heading := by
      rw [Step_of_out cm a hout]
      simp [Reflect, ReflectX, ReflectY, Point.GetX, Point.GetY, c1, c2, c3, c4]
    refine ⟨?_, hhead, fun hh => ?_⟩
    · rw [Step_of_out cm a hout]
      simp [Reflect, ReflectX, ReflectY, Point.GetX, Point.GetY, c1, c2, c3, c4]
      rw [hx]; ring
    · rw [hhead]; exact Heading.mirror_x_perpendicular cm hpi _ hh
  · intro hy hx1 hx2
    have c1 : ¬ (a.tentative cm).x > a.arena_size / 2 := not_lt.mpr hx2
    have c2 : ¬ (a.tentative cm).x < (-a.arena_size) / 2 := by
      rw [neg_div]; exact not_lt.mpr hx1
    have c3 : (a.tentative cm).y > a.arena_size / 2 := by rw [hy]; linarith
    have hout : a.IsOutOfBounds (a.tentative cm) = true := by
      simp [IsOutOfBounds, Point.GetY, c3]
    have hhead : (a.Step cm).heading =
        Heading.sub cm (Heading.ofRadians cm (2 * cm.M_PI)) a.heading := by
      rw [Step_of_out cm a hout]
      simp [Reflect, ReflectX, ReflectY, Point.GetX, Point.GetY, c1, c2, c3]
    refine ⟨?_, hhead, fun hh => ?_⟩
    · rw [Step_of_out cm a hout]
      simp [Reflect, ReflectX, ReflectY, Point.GetX, Point.GetY, c1, c2, c3]
      rw [hy]; ring
    · rw [hhead]; exact Heading.mirror_y_perpendicular cm hpi _ hh
  · intro hy hx1 hx2
    have c1 : ¬ (a.tentative cm).x > a.arena_size / 2 := not_lt.mpr hx2
    have c2 : ¬ (a.tentative cm).x < (-a.arena_size) / 2 := by
      rw [neg_div]; exact not_lt.mpr hx1
    have c3 : ¬ (a.tentative cm).y > a.arena_size / 2 := by rw [hy]; linarith
    have c4 : (a.tentative cm).y < (-a.arena_size) / 2 := by rw [hy, neg_div]; linarith
    have hout : a.IsOutOfBounds (a.tentative cm) = true := by
      simp [IsOutOfBounds, Point.GetY, c4]
    have hhead : (a.Step cm).heading =
        Heading.sub cm (Heading.ofRadians cm (2 * cm.M_PI)) a.heading := by
      rw [Step_of_out cm a hout]
      simp [Reflect, ReflectX, ReflectY, Point.GetX, Point.GetY, c1, c2, c3, c4]
    refine ⟨?_, hhead, fun hh => ?_⟩
    · rw [Step_of_out cm a hout]
      simp [Reflect, ReflectX, ReflectY, Point.GetX, Point.GetY, c1, c2, c3, c4]
      rw [hy]; ring
    · rw [hhead]; exact Heading.mirror_y_perpendicular cm hpi _ hh

end Agent

end AgentProofs

/-- C3, at the speed and arena of the test `agentSpeedHigh` and with the real cosine
and sine: an agent at the centre of an arena of side 100 with heading 0 and speed 200
is at `(-100, 0)` after one `Step`, outside `[-50, 50]²`. -/
theorem Agent.Step_speed_200_leaves_arena :
    (Agent.Step (⟨Real.pi, Real.cos, Real.sin⟩ : CMath ℝ)
        ⟨200, 100, ⟨0, 0⟩, Heading.ofRadians ⟨Real.pi, Real.cos, Real.sin⟩ 0, 1, 0⟩).position
      = ⟨-100, 0⟩ ∧
    (-100 : ℝ) < -(100 / 2) := by
  constructor
  · have h1 : ¬ ((200 : ℝ) < -100 / 2) := by norm_num
    have h2 : (200 : ℝ) > 100 / 2 := by norm_num
    simp [Agent.Step, Agent.tentative, Agent.IsOutOfBounds, Agent.Reflect, Agent.ReflectX, Agent.ReflectY,
      Heading.ofRadians, Heading.normalize, Heading.Radians, Point.GetX, Point.GetY, h2]
    norm_num
  · norm_num

/-- C4 on the agent of `bouncePerpendicularPosition`: from `(5, 0)` with heading 0 and
speed 2 in an arena of side 10 the tentative abscissa is `7 = 10/2 + 2`, and the step
ends at abscissa `10/2 - 2` with the heading turned by a half turn. -/
theorem Agent.Step_reflect_one_wall_witness :
    (Examples.bouncer.tentative Examples.cm).x = Examples.bouncer.arena_size / 2 + 2 ∧
    ((Examples.bouncer.Step Examples.cm).position =
        ⟨Examples.bouncer.arena_size / 2 - 2, (Examples.bouncer.tentative Examples.cm).y⟩ ∧
      (Examples.bouncer.Step Examples.cm).heading =
        Heading.sub Examples.cm (Heading.ofRadians Examples.cm Examples.cm.M_PI)
          Examples.bouncer.heading ∧
      (Examples.bouncer.heading = Heading.ofRadians Examples.cm 0 ∨
          Examples.bouncer.heading = Heading.ofRadians Examples.cm Examples.cm.M_PI →
        (Examples.bouncer.Step Examples.cm).heading =
          Heading.add Examples.cm Examples.bouncer.heading
            (Heading.ofRadians Examples.cm Examples.cm.M_PI))) :=
  have hx : (Examples.bouncer.tentative Examples.cm).x =
      Examples.bouncer.arena_size / 2 + 2 := by
    simp [Agent.tentative, Examples.bouncer, Agent.new, Examples.cm, Heading.ofRadians,
      Heading.normalize, Heading.Radians, Point.GetX]
    norm_num
  have hy : (Examples.bouncer.tentative Examples.cm).y = 0 := by
    simp [Agent.tentative, Examples.bouncer, Agent.new, Examples.cm, Heading.ofRadians,
      Heading.normalize, Heading.Radians, Point.GetY]
    norm_num
  have ha : Examples.bouncer.arena_size = 10 := rfl
  ⟨hx, (Agent.Step_reflect_one_wall Examples.cm Examples.bouncer 2 (by norm_num)
    (by rw [ha]; norm_num) (by simp [Examples.cm])).1 hx
    (by rw [hy, ha]; norm_num) (by rw [hy, ha]; norm_num)⟩

/-! ## Snapshots built by AddEdge -/

namespace NetworkSnapshot

/-- The effect of a valid `AddEdge` on every adjacency set, for `int` arguments. -/
theorem AddEdge_int (s : NetworkSnapshot) (i j : Int) (hs : s.WF)
    (h : ¬ (i = j ∨ i < 0 ∨ j < 0 ∨ i ≥ s.num_vertices ∨ j ≥ s.num_vertices)) :
    (s.AddEdge i j).1 = .ok () ∧ (s.AddEdge i j).2.WF ∧
      (s.AddEdge i j).2.num_vertices = s.num_vertices ∧
      ∀ (v : Nat) (k : Int), k ∈ (s.AddEdge i j).2.adj v ↔
        (k ∈ s.adj v ∨ (v = i.toNat ∧ k = j) ∨ (v = j.toNat ∧ k = i)) := by
  have hi : (i.toNat : Int) = i := Int.toNat_of_nonneg (by omega)
  have hj : (j.toNat : Int) = j := Int.toNat_of_nonneg (by omega)
  obtain ⟨s1, he, hwf, hn, hadj⟩ := AddEdge_nat s i.toNat j.toNat hs (by omega)
    (by omega) (by omega)
  rw [hi, hj] at he hadj
  rw [he]
  exact ⟨rfl, hwf, hn, hadj⟩

theorem Inv_new (n : Nat) : (⟨(n : Int), List.replicate n ∅⟩ : NetworkSnapshot).Inv := by
  refine ⟨⟨by simp, by simp⟩, ?_⟩
  intro v k hk
  rw [adj_new] at hk
  simp at hk

/-- Every `AddEdge` call, returning or throwing, keeps the invariant. -/
theorem Inv_AddEdge (s : NetworkSnapshot) (i j : Int) (h : s.Inv) :
    (s.AddEdge i j).2.Inv ∧ (s.AddEdge i j).2.num_vertices = s.num_vertices := by
  by_cases hv : i = j ∨ i < 0 ∨ j < 0 ∨ i ≥ s.num_vertices ∨ j ≥ s.num_vertices
  · rw [AddEdge_of_invalid s i j hv]
    exact ⟨h, rfl⟩
  · obtain ⟨_, hwf, hn, hadj⟩ := AddEdge_int s i j h.1 hv
    refine ⟨⟨hwf, ?_⟩, hn⟩
    intro v k hk
    rw [hn]
    rcases (hadj v k).mp hk with hold | ⟨e1, e2⟩ | ⟨e1, e2⟩
    · obtain ⟨h1, h2, h3, h4⟩ := h.2 v k hold
      exact ⟨h1, h2, h3, (hadj k.toNat v).mpr (Or.inl h4)⟩
    · subst e1 e2
      refine ⟨by omega, by omega, by omega, ?_⟩
      refine (hadj k.toNat _).mpr (Or.inr (Or.inr ⟨rfl, ?_⟩))
      exact Int.toNat_of_nonneg (by omega)
    · subst e1 e2
      refine ⟨by omega, by omega, by omega, ?_⟩
      refine (hadj k.toNat _).mpr (Or.inr (Or.inl ⟨rfl, ?_⟩))
      exact Int.toNat_of_nonneg (by omega)

theorem Inv_addEdges (calls : List (Int × Int)) :
    ∀ s : NetworkSnapshot, s.Inv →
      (s.addEdges calls).Inv ∧ (s.addEdges calls).num_vertices = s.num_vertices := by
  induction calls with
  | nil => intro s h; exact ⟨h, rfl⟩
  | cons c rest ih =>
    intro s h
    obtain ⟨i, j⟩ := c
    obtain ⟨h1, h2⟩ := Inv_AddEdge s i j h
    obtain ⟨h3, h4⟩ := ih _ h1
    exact ⟨h3, by rw [← h2, ← h4]; rfl⟩

/-- A snapshot built by the constructor and `AddEdge` calls exists for every count
`n ≥ 0` and satisfies the invariant. -/
theorem build_Inv (n : Nat) (calls : List (Int × Int)) :
    ∃ s, build n calls = .ok s ∧ s.Inv ∧ s.num_vertices = n := by
  obtain ⟨h1, h2⟩ := Inv_addEdges calls _ (Inv_new n)
  refine ⟨_, ?_, h1, h2⟩
  simp only [build, new_nat]

/-- C11: for every `n ≥ 0`, `NetworkSnapshot(n)` is a snapshot with `n` empty adjacency
sets, and the snapshot after any sequence of `AddEdge` calls on it, returning or
throwing, has `n` vertices and satisfies: `j ∈ adjacency[i]` iff `i ∈ adjacency[j]`,
no vertex is its own neighbour, and every stored neighbour lies in `[0, n)`. -/
theorem build_invariant (n : Nat) (calls : List (Int × Int)) :
    ∃ s0 s, NetworkSnapshot.new n = .ok s0 ∧
      s0.adjacency_list.length = n ∧ (∀ v : Nat, s0.adj v = ∅) ∧
      build n calls = .ok s ∧ s = s0.addEdges calls ∧
      s.num_vertices = n ∧ s.adjacency_list.length = n ∧
      (∀ i j : Nat, (j : Int) ∈ s.adj i ↔ (i : Int) ∈ s.adj j) ∧
      (∀ i : Nat, (i : Int) ∉ s.adj i) ∧
      (∀ (i : Nat) (k : Int), k ∈ s.adj i → 0 ≤ k ∧ k < n) := by
  obtain ⟨h1, h2⟩ := Inv_addEdges calls _ (Inv_new n)
  refine ⟨⟨(n : Int), List.replicate n ∅⟩, _, new_nat n, by simp, adj_new n, ?_, rfl, h2,
    ?_, ?_, ?_, ?_⟩
  · simp only [build, new_nat]
  · have := h1.1.2
    rw [h2] at this
    simpa using this
  · intro i j
    constructor
    · intro h
      have := (h1.2 i j h).2.2.2
      simpa using this
    · intro h
      have := (h1.2 j i h).2.2.2
      simpa using this
  · intro i h
    exact (h1.2 i i h).2.2.1 rfl
  · intro i k h
    have := h1.2 i k h
    rw [h2] at this
    exact ⟨this.1, this.2.1⟩

/-! ### Idempotence -/

theorem insertAt_of_mem (l : List (Finset Int)) (v : Nat) (w : Int)
    (h : w ∈ l.getD v ∅) : insertAt l v w = l := by
  unfold insertAt
  rw [Finset.insert_eq_of_mem h]
  apply List.ext_getElem?
  intro u
  by_cases hu : u = v
  · subst hu
    by_cases hlen : u < l.length
    · simp [List.getElem?_set, hlen, List.getD_eq_getElem?_getD, List.getElem?_eq_getElem hlen]
    · simp [List.getElem?_set, hlen]
      omega
  · have : ¬ v = u := fun e => hu e.symm
    simp [List.getElem?_set, this]

/-- On a snapshot that already holds the edge, `AddEdge` changes nothing. -/
theorem AddEdge_of_present (s : NetworkSnapshot) (i j : Int)
    (h : ¬ (i = j ∨ i < 0 ∨ j < 0 ∨ i ≥ s.num_vertices ∨ j ≥ s.num_vertices))
    (hij : j ∈ s.adj i.toNat) (hji : i ∈ s.adj j.toNat) :
    s.AddEdge i j = (.ok (), s) := by
  rw [AddEdge_of_valid s i j h]
  have h1 : insertAt s.adjacency_list i.toNat j = s.adjacency_list :=
    insertAt_of_mem _ _ _ hij
  rw [h1, insertAt_of_mem _ _ _ hji]

/-- C12: on a snapshot with `n` vertices and a valid pair `i != j` in `[0, n)`, a second
`AddEdge(i, j)`, or an `AddEdge(j, i)`, after `AddEdge(i, j)` returns and leaves the
snapshot as the first call left it: equal under `operator==` (indeed identical), with
the same `EdgeCount()`. -/
theorem AddEdge_idempotent (s : NetworkSnapshot) (i j : Int) (hs : s.WF)
    (hij : i ≠ j) (hi0 : 0 ≤ i) (hi : i < s.num_vertices)
    (hj0 : 0 ≤ j) (hj : j < s.num_vertices) :
    (s.AddEdge i j).1 = .ok () ∧
    ((s.AddEdge i j).2.AddEdge i j).1 = .ok () ∧
    ((s.AddEdge i j).2.AddEdge j i).1 = .ok () ∧
    ((s.AddEdge i j).2.AddEdge i j).2 = (s.AddEdge i j).2 ∧
    ((s.AddEdge i j).2.AddEdge j i).2 = (s.AddEdge i j).2 ∧
    operatorEq ((s.AddEdge i j).2.AddEdge i j).2 (s.AddEdge i j).2 = true ∧
    operatorEq ((s.AddEdge i j).2.AddEdge j i).2 (s.AddEdge i j).2 = true ∧
    ((s.AddEdge i j).2.AddEdge i j).2.EdgeCount = (s.AddEdge i j).2.EdgeCount ∧
    ((s.AddEdge i j).2.AddEdge j i).2.EdgeCount = (s.AddEdge i j).2.EdgeCount := by
  have hv : ¬ (i = j ∨ i < 0 ∨ j < 0 ∨ i ≥ s.num_vertices ∨ j ≥ s.num_vertices) := by omega
  obtain ⟨hok, hwf, hn, hadj⟩ := AddEdge_int s i j hs hv
  have hv1 : ¬ (i = j ∨ i < 0 ∨ j < 0 ∨ i ≥ (s.AddEdge i j).2.num_vertices ∨
      j ≥ (s.AddEdge i j).2.num_vertices) := by rw [hn]; exact hv
  have hv2 : ¬ (j = i ∨ j < 0 ∨ i < 0 ∨ j ≥ (s.AddEdge i j).2.num_vertices ∨
      i ≥ (s.AddEdge i j).2.num_vertices) := by rw [hn]; omega
  have m1 : j ∈ (s.AddEdge i j).2.adj i.toNat :=
    (hadj i.toNat j).mpr (Or.inr (Or.inl ⟨rfl, rfl⟩))
  have m2 : i ∈ (s.AddEdge i j).2.adj j.toNat :=
    (hadj j.toNat i).mpr (Or.inr (Or.inr ⟨rfl, rfl⟩))
  have e1 := AddEdge_of_present (s.AddEdge i j).2 i j hv1 m1 m2
  have e2 := AddEdge_of_present (s.AddEdge i j).2 j i hv2 m2 m1
  rw [e1, e2]
  simp [hok, operatorEq]

/-! ### Degree sums -/

theorem range_map_getD {α : Type} (l : List α) (d : α) :
    (List.range l.length).map (fun v => l.getD v d) = l := by
  apply List.ext_getElem
  · simp
  · intro i h1 h2
    simp [List.getD_eq_getElem?_getD, List.getElem?_eq_getElem h2]

/-- Replacing one set of the vector changes the total by the change of its size. -/
theorem sum_card_set (l : List (Finset Int)) :
    ∀ (v : Nat) (x : Finset Int), v < l.length →
      ((l.set v x).map Finset.card).sum + (l.getD v ∅).card =
        (l.map Finset.card).sum + x.card := by
  induction l with
  | nil => intro v x h; simp at h
  | cons a rest ih =>
    intro v x h
    cases v with
    | zero => simp; omega
    | succ v =>
      have := ih v x (by simpa using h)
      simp only [List.set_cons_succ, List.map_cons, List.sum_cons, List.getD_cons_succ]
      omega

theorem sum_card_insertAt (l : List (Finset Int)) (v : Nat) (w : Int) (hv : v < l.length) :
    ((insertAt l v w).map Finset.card).sum =
      (l.map Finset.card).sum + (if w ∈ l.getD v ∅ then 0 else 1) := by
  by_cases h : w ∈ l.getD v ∅
  · rw [insertAt_of_mem l v w h, if_pos h]; rfl
  · have := sum_card_set l v (insert w (l.getD v ∅)) hv
    rw [Finset.card_insert_of_not_mem h] at this
    rw [if_neg h]
    unfold insertAt
    omega

/-- A valid `AddEdge` on a snapshot with the invariant adds 0 or 2 to the total. -/
theorem degreeSum_AddEdge (s : NetworkSnapshot) (i j : Int) (h : s.Inv)
    (hv : ¬ (i = j ∨ i < 0 ∨ j < 0 ∨ i ≥ s.num_vertices ∨ j ≥ s.num_vertices)) :
    (s.AddEdge i j).2.degreeSum = s.degreeSum + (if j ∈ s.adj i.toNat then 0 else 2) := by
  obtain ⟨hn0, hlen⟩ := h.1
  have hiN : i.toNat < s.adjacency_list.length := by omega
  have hjN : j.toNat < s.adjacency_list.length := by omega
  have hjN2 : j.toNat < (insertAt s.adjacency_list i.toNat j).length := by
    rw [length_insertAt]; exact hjN
  have hne : j.toNat ≠ i.toNat := by omega
  have hi : (i.toNat : Int) = i := Int.toNat_of_nonneg (by omega)
  have hj : (j.toNat : Int) = j := Int.toNat_of_nonneg (by omega)
  rw [AddEdge_of_valid s i j hv]
  simp only [degreeSum]
  rw [sum_card_insertAt _ _ _ hjN2, sum_card_insertAt _ _ _ hiN,
    getD_insertAt _ _ _ _ hiN, if_neg hne]
  have hsym : i ∈ s.adjacency_list.getD j.toNat ∅ ↔ j ∈ s.adjacency_list.getD i.toNat ∅ := by
    constructor
    · intro hm
      have := (h.2 j.toNat i hm).2.2.2
      rw [hj] at this
      exact this
    · intro hm
      have := (h.2 i.toNat j hm).2.2.2
      rw [hi] at this
      exact this
  by_cases hm : j ∈ s.adjacency_list.getD i.toNat ∅
  · simp only [adj]
    rw [if_pos hm, if_pos (hsym.mpr hm), if_pos hm]
  · have hm2 : ¬ i ∈ s.adjacency_list.getD j.toNat ∅ := fun e => hm (hsym.mp e)
    simp only [adj]
    rw [if_neg hm, if_neg hm2, if_neg hm]

theorem even_degreeSum_addEdges (calls : List (Int × Int)) :
    ∀ s : NetworkSnapshot, s.Inv → Even s.degreeSum → Even (s.addEdges calls).degreeSum := by
  induction calls with
  | nil => intro s _ h; exact h
  | cons c rest ih =>
    intro s h he
    obtain ⟨i, j⟩ := c
    refine ih _ (Inv_AddEdge s i j h).1 ?_
    by_cases hv : i = j ∨ i < 0 ∨ j < 0 ∨ i ≥ s.num_vertices ∨ j ≥ s.num_vertices
    · rw [AddEdge_of_invalid s i j hv]; exact he
    · rw [degreeSum_AddEdge s i j h hv]
      split_ifs
      · simpa using he
      · exact he.add (by decide)

theorem degreeSum_new (n : Nat) :
    (⟨(n : Int), List.replicate n ∅⟩ : NetworkSnapshot).degreeSum = 0 := by
  simp [degreeSum]

/-- The total of a built snapshot is even. -/
theorem build_even (n : Nat) (calls : List (Int × Int)) :
    ∃ s, build n calls = .ok s ∧ s.Inv ∧ s.num_vertices = n ∧ Even s.degreeSum := by
  obtain ⟨h1, h2⟩ := Inv_addEdges calls _ (Inv_new n)
  refine ⟨_, ?_, h1, h2, even_degreeSum_addEdges calls _ (Inv_new n) ?_⟩
  · simp only [build, new_nat]
  · rw [degreeSum_new]; exact even_zero

theorem degreeSum_eq_sum_adj (s : NetworkSnapshot) :
    s.degreeSum = ((List.range s.adjacency_list.length).map (fun v => (s.adj v).card)).sum := by
  have h := range_map_getD s.adjacency_list ∅
  unfold degreeSum
  conv_lhs => rw [← h]
  rw [List.map_map]
  rfl

/-- C15: for every snapshot built from `NetworkSnapshot(n)` by `AddEdge` calls,
`2 * EdgeCount()` equals the sum of the degrees of the `n` vertices: that sum is even
and the integer division by 2 is exact. -/
theorem two_mul_EdgeCount (n : Nat) (calls : List (Int × Int)) :
    ∃ s, build n calls = .ok s ∧
      2 * s.EdgeCount = (((List.range n).map (fun v => (s.adj v).card)).sum : Nat) ∧
      Even ((List.range n).map (fun v => (s.adj v).card)).sum := by
  obtain ⟨s, hb, hinv, hn, hev⟩ := build_even n calls
  have hlen : s.adjacency_list.length = n := by
    have := hinv.1.2
    rw [hn] at this
    simpa using this
  have hsum := degreeSum_eq_sum_adj s
  rw [hlen] at hsum
  refine ⟨s, hb, ?_, by rw [← hsum]; exact hev⟩
  rw [← hsum]
  obtain ⟨k, hk⟩ := hev
  simp only [EdgeCount, hk]
  push_cast
  omega

/-! ### The degree distribution -/

/-- Under the invariant a vertex has at most `n - 1` neighbours. -/
theorem card_adj_lt (s : NetworkSnapshot) (h : s.Inv) (v : Nat)
    (hv : v < s.adjacency_list.length) : (s.adj v).card + 1 ≤ s.adjacency_list.length := by
  obtain ⟨hn0, hlen⟩ := h.1
  have hsub : s.adj v ⊆
      ((Finset.range s.adjacency_list.length).erase v).image (fun k : Nat => (k : Int)) := by
    intro k hk
    obtain ⟨h1, h2, h3, _⟩ := h.2 v k hk
    rw [Finset.mem_image]
    refine ⟨k.toNat, ?_, Int.toNat_of_nonneg h1⟩
    rw [Finset.mem_erase, Finset.mem_range]
    constructor
    · intro e; apply h3; rw [← e]; exact (Int.toNat_of_nonneg h1).symm
    · omega
  have h1 := Finset.card_le_card hsub
  have h2 := Finset.card_image_le (s := (Finset.range s.adjacency_list.length).erase v)
    (f := fun k : Nat => (k : Int))
  have h3 : ((Finset.range s.adjacency_list.length).erase v).card =
      s.adjacency_list.length - 1 := by
    rw [Finset.card_erase_of_mem (Finset.mem_range.mpr hv), Finset.card_range]
  omega

theorem sum_set_succ (l : List Nat) :
    ∀ i, i < l.length → (l.set i (l.getD i 0 + 1)).sum = l.sum + 1 := by
  induction l with
  | nil => intro i h; simp at h
  | cons a rest ih =>
    intro i h
    cases i with
    | zero => simp; omega
    | succ i =>
      have := ih i (by simpa using h)
      simp only [List.set_cons_succ, List.sum_cons, List.getD_cons_succ]
      omega

theorem getD_set_succ (l : List Nat) (i d : Nat) (hi : i < l.length) :
    (l.set i (l.getD i 0 + 1)).getD d 0 = l.getD d 0 + (if i = d then 1 else 0) := by
  by_cases h : i = d
  · subst h
    simp [List.getD_eq_getElem?_getD, List.getElem?_set, hi]
  · simp [List.getD_eq_getElem?_getD, List.getElem?_set, h]

/-- The loop of `DegreeDistribution` stays inside the vector when every visited set
is smaller than the vector, and adds to each entry `d` the number of visited sets of
size `d`. -/
theorem DegreeDistribution.tally_spec :
    ∀ (als : List (Finset Int)) (dist : List Nat), (∀ al ∈ als, al.card < dist.length) →
      ∃ dist1, DegreeDistribution.tally als dist = .ok dist1 ∧
        dist1.length = dist.length ∧
        (∀ d, dist1.getD d 0 = dist.getD d 0 + als.countP (fun al => al.card = d)) ∧
        dist1.sum = dist.sum + als.length := by
  intro als
  induction als with
  | nil => intro dist _; exact ⟨dist, rfl, rfl, by simp, by simp⟩
  | cons al rest ih =>
    intro dist h
    have hal := h al (List.mem_cons_self _ _)
    obtain ⟨dist1, hr, hl, hd, hs⟩ := ih (dist.set al.card (dist.getD al.card 0 + 1))
      (fun x hx => by simpa using h x (List.mem_cons_of_mem _ hx))
    refine ⟨dist1, ?_, by simpa using hl, ?_, ?_⟩
    · simp only [DegreeDistribution.tally, hal, if_true]
      exact hr
    · intro d
      rw [hd d, getD_set_succ dist _ d hal, List.countP_cons]
      by_cases e : al.card = d
      · simp [e]; omega
      · simp [e]
    · rw [hs, sum_set_succ dist _ hal, List.length_cons]
      omega

/-- C16: for every snapshot built from `NetworkSnapshot(n)` by `AddEdge` calls,
`DegreeDistribution()` returns a vector of length `n` whose entry `d`, for each
`d < n`, is the number of vertices with exactly `d` neighbours; every vertex has at
most `n - 1` neighbours, so no index leaves the vector, and the entries sum to `n`. -/
theorem DegreeDistribution_built (n : Nat) (calls : List (Int × Int)) :
    ∃ s dist, build n calls = .ok s ∧ s.DegreeDistribution = .ok dist ∧
      dist.length = n ∧
      (∀ d, d < n →
        dist.getD d 0 = (List.range n).countP (fun v => (s.adj v).card = d)) ∧
      (∀ v, v < n → (s.adj v).card ≤ n - 1) ∧
      dist.sum = n := by
  obtain ⟨s, hb, hinv, hn⟩ := build_Inv n calls
  have hlen : s.adjacency_list.length = n := by
    have := hinv.1.2
    rw [hn] at this
    simpa using this
  have hdeg : ∀ v, v < n → (s.adj v).card + 1 ≤ n := by
    intro v hv
    have := card_adj_lt s hinv v (by omega)
    omega
  have hall : ∀ al ∈ s.adjacency_list, al.card < (List.replicate n 0).length := by
    intro al hal
    obtain ⟨v, hv, e⟩ := List.getElem_of_mem hal
    have := hdeg v (by omega)
    have e2 : s.adj v = al := by
      simp [adj, List.getD_eq_getElem?_getD, List.getElem?_eq_getElem hv, e]
    rw [e2] at this
    simp
    omega
  obtain ⟨dist, ht, hl, hd, hs⟩ := DegreeDistribution.tally_spec s.adjacency_list
    (List.replicate n 0) hall
  have hnneg : ¬ s.num_vertices < 0 := by omega
  refine ⟨s, dist, hb, ?_, by simpa using hl, ?_, ?_, ?_⟩
  · simp only [DegreeDistribution, hnneg, if_false, hn, Int.toNat_ofNat]
    exact ht
  · intro d hd1
    rw [hd d]
    have hmap := range_map_getD s.adjacency_list ∅
    rw [hlen] at hmap
    have hz : (List.replicate n 0).getD d 0 = 0 := by
      simp [List.getD_eq_getElem?_getD, List.getElem?_replicate, hd1]
    rw [hz, Nat.zero_add]
    conv_lhs => rw [← hmap]
    rw [List.countP_map]
    rfl
  · intro v hv
    have := hdeg v hv
    omega
  · rw [hs, hlen]
    simp

/-! ### Density and average degree -/

/-- An `int` value that fits is held as it is. -/
theorem wrapInt32_of_fits (x : Int) (h0 : 0 ≤ x) (h1 : x < 2 ^ 31) : wrapInt32 x = x := by
  unfold wrapInt32
  rw [Int.emod_eq_of_lt (by omega) (by omega)]
  omega

/-- The product `n*(n-1)` of `Density` at the first count that does not fit, and at
50000 vertices, where the divisor is negative. -/
theorem wrapInt32_product_overflows :
    wrapInt32 (46341 * (46341 - 1)) = 2147441940 ∧
    wrapInt32 (46342 * (46342 - 1)) = -2147432674 ∧
    wrapInt32 (50000 * (50000 - 1)) = -1795017296 := by
  decide

section
variable {R : Type} [LinearOrderedField R]

/-- C13, as amended: for every snapshot with `n` vertices, `2 ≤ n ≤ 46341` (so that
the `int` product `n*(n-1)` fits), built by `AddEdge` calls, `Density()` is the sum of
the degrees over `n*(n-1)`, which is the conventional density itself, `EdgeCount()`
over the `n*(n-1)/2` possible edges (not twice it). -/
theorem Density_eq_conventional (n : Nat) (hn : 2 ≤ n) (hfit : n ≤ 46341)
    (calls : List (Int × Int)) :
    ∃ s, build n calls = .ok s ∧
      (s.Density : R) =
        ((((List.range n).map (fun v => (s.adj v).card)).sum : Nat) : R) /
          ((n : R) * ((n : R) - 1)) ∧
      (s.Density : R) = ((s.EdgeCount : Int) : R) / (((n : R) * ((n : R) - 1)) / 2) := by
  obtain ⟨s, hb, hinv, hnv, hev⟩ := build_even n calls
  have hlen : s.adjacency_list.length = n := by
    have := hinv.1.2
    rw [hnv] at this
    simpa using this
  have hsum := degreeSum_eq_sum_adj s
  rw [hlen] at hsum
  have hn1 : (n : R) ≠ 0 := by
    have : 0 < n := by omega
    exact_mod_cast this.ne'
  have hn2 : (n : R) - 1 ≠ 0 := by
    have h1 : (2 : R) ≤ (n : R) := by exact_mod_cast hn
    intro e
    linarith
  have hprod : wrapInt32 ((n : Int) * ((n : Int) - 1)) = (n : Int) * ((n : Int) - 1) := by
    have h2 : (2 : Int) ≤ (n : Int) := by exact_mod_cast hn
    have h3 : (n : Int) ≤ 46341 := by exact_mod_cast hfit
    apply wrapInt32_of_fits
    · nlinarith
    · nlinarith
  have hD : (s.Density : R) = (s.degreeSum : R) / ((n : R) * ((n : R) - 1)) := by
    simp only [Density, hnv, hprod]
    push_cast
    rfl
  refine ⟨s, hb, by rw [hD, hsum], ?_⟩
  obtain ⟨k, hk⟩ := hev
  have hE : s.EdgeCount = (k : Int) := by
    simp only [EdgeCount, hk]
    push_cast
    omega
  rw [hD, hE, hk]
  push_cast
  field_simp
  ring

end

/-- C13, the claim as stated fails: on two vertices joined by one edge `Density()` is 1,
the conventional density `EdgeCount() / (n*(n-1)/2)` is 1 as well, and twice it
is 2. -/
theorem Density_not_twice_conventional :
    ∃ s, build 2 [(0, 1)] = .ok s ∧ (s.Density : ℚ) = 1 ∧
      ((s.EdgeCount : Int) : ℚ) / (((2 : ℚ) * (2 - 1)) / 2) = 1 ∧
      (s.Density : ℚ) ≠ 2 * (((s.EdgeCount : Int) : ℚ) / (((2 : ℚ) * (2 - 1)) / 2)) := by
  have hs : (⟨2, [{1}, {0}]⟩ : NetworkSnapshot).degreeSum = 2 := by decide
  have hw : wrapInt32 (2 * (2 - 1)) = 2 := by decide
  have hb : build 2 [(0, 1)] = .ok ⟨2, [{1}, {0}]⟩ := by
    rw [show build 2 [(0, 1)] =
      .ok ((⟨2, [∅, ∅]⟩ : NetworkSnapshot).addEdges [(0, 1)]) from rfl]
    exact congrArg Except.ok (by decide)
  refine ⟨⟨2, [{1}, {0}]⟩, hb, ?_, ?_, ?_⟩
  · simp only [Density, hs, hw]; norm_num
  · simp only [EdgeCount, hs]; norm_num
  · simp only [Density, EdgeCount, hs, hw]; norm_num

/-- C13 as amended, at three vertices and the one edge `(0, 1)`. -/
theorem Density_eq_conventional_witness :
    ∃ s, build (3 : Nat) [(0, 1)] = .ok s ∧
      (s.Density : ℚ) =
        ((((List.range 3).map (fun v => (s.adj v).card)).sum : Nat) : ℚ) /
          (((3 : Nat) : ℚ) * (((3 : Nat) : ℚ) - 1)) ∧
      (s.Density : ℚ) =
        ((s.EdgeCount : Int) : ℚ) / ((((3 : Nat) : ℚ) * (((3 : Nat) : ℚ) - 1)) / 2) :=
  Density_eq_conventional 3 (by decide) (by decide) [(0, 1)]

/-- C14, at the snapshot of the claim: with three vertices and one edge the degrees sum
to 2 and `AverageDegree()` is `2 / 3` in `unsigned` arithmetic, that is 0, where the
real-valued quotient is `2/3`. -/
theorem AverageDegree_truncates :
    ∃ s, build 3 [(0, 1)] = .ok s ∧ s.degreeSum = 2 ∧ (s.AverageDegree : ℚ) = 0 ∧
      (s.degreeSum : ℚ) / 3 = 2 / 3 ∧
      (s.AverageDegree : ℚ) ≠ (s.degreeSum : ℚ) / 3 := by
  have hs : (⟨3, [{1}, {0}, ∅]⟩ : NetworkSnapshot).degreeSum = 2 := by decide
  have hb : build 3 [(0, 1)] = .ok ⟨3, [{1}, {0}, ∅]⟩ := by
    rw [show build 3 [(0, 1)] =
      .ok ((⟨3, [∅, ∅, ∅]⟩ : NetworkSnapshot).addEdges [(0, 1)]) from rfl]
    exact congrArg Except.ok (by decide)
  refine ⟨⟨3, [{1}, {0}, ∅]⟩, hb, hs, ?_, ?_, ?_⟩
  · simp [AverageDegree, hs]
  · rw [hs]; norm_num
  · simp [AverageDegree, hs]
    norm_num

end NetworkSnapshot

namespace Network

/-- C17, at the bound: on a network holding one snapshot `GetSnapshot(1)` passes the
guard `t > size()` and reads `_snapshots[1]` outside the vector, and so does
`GetSnapshot(Size())` on every network; no `std::out_of_range` is thrown there. -/
theorem GetSnapshot_at_Size :
    ((⟨[]⟩ : Network).AppendSnapshot ⟨0, []⟩).Size = 1 ∧
    ((⟨[]⟩ : Network).AppendSnapshot ⟨0, []⟩).GetSnapshot 1 = .error .undefined_access ∧
    ∀ n : Network, n.GetSnapshot n.Size = .error .undefined_access ∧
      n.GetSnapshot n.Size ≠ .error (.out_of_range "Network::GetSnapshot()") := by
  have h : ∀ n : Network, n.GetSnapshot n.Size = .error .undefined_access := by
    intro n
    simp [GetSnapshot, Size]
  refine ⟨rfl, h _, fun n => ⟨h n, ?_⟩⟩
  rw [h n]
  simp

end Network

/-! ## Statistics of a run -/

namespace ModelStats

section
variable {R : Type} [LinearOrderedField R]

/-- C19: `IsCorrect()` is false when no density is recorded; otherwise, with `first`
and `last` the first and last recorded densities, it is true exactly when
`first >= 0.5` and `last == 1.0`, or `first < 0.5` and `last == 0.0`; a first density
of exactly `0.5` expects `1.0`. -/
theorem IsCorrect_spec (st : ModelStats R) :
    (st.ca_density = [] → st.IsCorrect = false) ∧
    (st.ca_density ≠ [] →
      ∃ first last, st.ca_density.head? = some first ∧
        st.ca_density.getLast? = some last ∧
        (st.IsCorrect = true ↔
          ((first ≥ 1 / 2 ∧ last = 1) ∨ (first < 1 / 2 ∧ last = 0))) ∧
        (first = 1 / 2 → (st.IsCorrect = true ↔ last = 1))) := by
  constructor
  · intro h
    simp [IsCorrect, h]
  · intro h
    obtain ⟨first, rest, e⟩ := List.exists_cons_of_ne_nil h
    have hh : st.ca_density.head? = some first := by rw [e]; rfl
    have hl : st.ca_density.getLast? = some (st.ca_density.getLast h) :=
      List.getLast?_eq_getLast _ h
    refine ⟨first, st.ca_density.getLast h, hh, hl, ?_, ?_⟩
    · simp only [IsCorrect, hh, hl]
      by_cases hf : first ≥ 1 / 2
      · have hnot : ¬ first < 1 / 2 := not_lt.mpr hf
        rw [if_pos hf, decide_eq_true_eq]
        constructor
        · intro h1
          exact Or.inl ⟨hf, h1⟩
        · rintro (⟨_, h1⟩ | ⟨h2, _⟩)
          · exact h1
          · exact absurd h2 hnot
      · have hlt : first < 1 / 2 := not_le.mp hf
        rw [if_neg hf, decide_eq_true_eq]
        constructor
        · intro h1
          exact Or.inr ⟨hlt, h1⟩
        · rintro (⟨h2, _⟩ | ⟨_, h1⟩)
          · exact absurd h2 hf
          · exact h1
    · intro e2
      have hf : first ≥ 1 / 2 := by rw [e2]
      simp only [IsCorrect, hh, hl]
      rw [if_pos hf, decide_eq_true_eq]

/-- C19 on the history `[1/2, 3/4, 1]`: the run is correct. -/
theorem IsCorrect_spec_witness :
    (⟨⟨[]⟩, [1 / 2, 3 / 4, 1]⟩ : ModelStats ℚ).IsCorrect = true :=
  have h := (IsCorrect_spec (⟨⟨[]⟩, [1 / 2, 3 / 4, 1]⟩ : ModelStats ℚ)).2 (by simp)
  match h with
  | ⟨first, last, hf, hl, hiff, _⟩ => by
    have e1 : first = 1 / 2 := by simpa using hf.symm
    have e2 : last = 1 := by simpa using hl.symm
    exact hiff.mpr (Or.inl ⟨by rw [e1], e2⟩)

end
end ModelStats

namespace Model
section
variable {R : Type} [LinearOrderedField R] [FloorRing R] {G : Type}

/-! ### The density -/

theorem sum_eq_count_one :
    ∀ l : List Int, (∀ x ∈ l, x = 0 ∨ x = 1) → l.sum = (l.count 1 : Nat) := by
  intro l
  induction l with
  | nil => intro _; rfl
  | cons a rest ih =>
    intro h
    have hr := ih (fun x hx => h x (List.mem_cons_of_mem _ hx))
    rcases h a (List.mem_cons_self _ _) with e | e
    · subst e
      simp [hr]
    · subst e
      simp [hr]
      omega

/-- C20: for a model with `n ≥ 1` agents, as many states, and every state 0 or 1,
`CurrentDensity()` is the number of states equal to 1 over `n`, lies in `[0, 1]`,
is 0 exactly when every state is 0 and is 1 exactly when every state is 1. -/
theorem CurrentDensity_spec (m : Model R G)
    (hlen : m.agents.length = m.agent_states.length) (hn : 1 ≤ m.agents.length)
    (h01 : ∀ x ∈ m.agent_states, x = 0 ∨ x = 1) :
    m.CurrentDensity = (m.agent_states.count 1 : R) / (m.agents.length : R) ∧
    0 ≤ m.CurrentDensity ∧ m.CurrentDensity ≤ 1 ∧
    (m.CurrentDensity = 0 ↔ ∀ x ∈ m.agent_states, x = 0) ∧
    (m.CurrentDensity = 1 ↔ ∀ x ∈ m.agent_states, x = 1) := by
  have hpos : (0 : R) < (m.agent_states.length : R) := by
    have : 0 < m.agent_states.length := by omega
    exact_mod_cast this
  have hD : m.CurrentDensity =
      (m.agent_states.count 1 : R) / (m.agent_states.length : R) := by
    simp only [CurrentDensity, sum_eq_count_one m.agent_states h01]
    push_cast
    rfl
  have hle : m.agent_states.count 1 ≤ m.agent_states.length := List.count_le_length _ _
  have hleR : (m.agent_states.count 1 : R) ≤ (m.agent_states.length : R) := by
    exact_mod_cast hle
  refine ⟨by rw [hD, hlen], ?_, ?_, ?_, ?_⟩
  · rw [hD]; positivity
  · rw [hD, div_le_one hpos]; exact hleR
  · rw [hD, div_eq_zero_iff]
    constructor
    · rintro (h | h)
      · have hc : m.agent_states.count 1 = 0 := by exact_mod_cast h
        intro x hx
        rcases h01 x hx with e | e
        · exact e
        · subst e
          exact absurd hx (List.count_eq_zero.mp hc)
      · exact absurd h hpos.ne'
    · intro h
      left
      have : m.agent_states.count 1 = 0 := by
        rw [List.count_eq_zero]
        intro hm
        have := h 1 hm
        omega
      exact_mod_cast this
  · rw [hD, div_eq_one_iff_eq hpos.ne']
    constructor
    · intro h
      have hc : m.agent_states.count 1 = m.agent_states.length := by exact_mod_cast h
      intro x hx
      exact (List.count_eq_length.mp hc x hx).symm
    · intro h
      have : m.agent_states.count 1 = m.agent_states.length := by
        rw [List.count_eq_length]
        intro x hx
        exact (h x hx).symm
      exact_mod_cast this

/-- C20 at `Examples.trio`, whose states are `[1, 0, 1]`. -/
theorem CurrentDensity_spec_witness :
    Examples.trio.CurrentDensity =
        (Examples.trio.agent_states.count 1 : ℚ) / (Examples.trio.agents.length : ℚ) ∧
    0 ≤ Examples.trio.CurrentDensity ∧ Examples.trio.CurrentDensity ≤ 1 ∧
    (Examples.trio.CurrentDensity = 0 ↔ ∀ x ∈ Examples.trio.agent_states, x = 0) ∧
    (Examples.trio.CurrentDensity = 1 ↔ ∀ x ∈ Examples.trio.agent_states, x = 1) :=
  CurrentDensity_spec Examples.trio rfl (by decide) (by decide)

end
section
variable {R : Type} [LinearOrderedField R] [FloorRing R] {G : Type}

/-! ### The statistics stay in lockstep -/

/-- One step pushes exactly one density, the density of the new states, and exactly
one snapshot, the network of the moved agents. -/
theorem Step_stats (cm : CMath R) (ts : TurnSchedule R) (rule : Rule) (m : Model R G)
    (hlen : m.agents.length = m.agent_states.length) :
    ∃ net m1, (Step.moved cm ts m).CurrentNetwork = .ok net ∧
      Step cm ts rule m = (.ok (), m1) ∧
      m1.agents.length = m1.agent_states.length ∧
      m1.stats.ca_density = m.stats.ca_density ++ [m1.CurrentDensity] ∧
      m1.stats.network.snapshots = m.stats.network.snapshots ++ [net] := by
  obtain ⟨net, ns1, hnet, _, _, hstep, hlen1, _⟩ := Step_ok cm ts rule m hlen
  refine ⟨net, _, hnet, hstep, ?_, rfl, rfl⟩
  rw [Step.commit_agents, Step.commit_agent_states, Step.moved_length, hlen1, hlen]

/-- The loop `run` for `k + 1` steps is the loop for `k` steps followed by one step. -/
theorem run_succ_last (cm : CMath R) (ts : TurnSchedule R) (rule : Rule) :
    ∀ (k : Nat) (m mk : Model R G), run cm ts rule k m = (.ok (), mk) →
      run cm ts rule (k + 1) m = Step cm ts rule mk := by
  intro k
  induction k with
  | zero =>
    intro m mk h
    simp only [run] at h
    cases h
    simp only [run]
    rcases hS : Step cm ts rule m with ⟨r, m1⟩
    cases r <;> rfl
  | succ k ih =>
    intro m mk h
    rw [run] at h
    rw [run]
    rcases hS : Step cm ts rule m with ⟨r, m1⟩
    rw [hS] at h
    cases r with
    | error e => simp at h
    | ok u => exact ih m1 mk h

/-- After `k` steps the two histories have grown by `k` entries each, the old entries
in place, and the last density is the current one. -/
theorem run_stats (cm : CMath R) (ts : TurnSchedule R) (rule : Rule) :
    ∀ (k : Nat) (m : Model R G), m.agents.length = m.agent_states.length →
      m.stats.ca_density.getLast? = some m.CurrentDensity →
      ∃ mk ds nets, run cm ts rule k m = (.ok (), mk) ∧
        mk.agents.length = mk.agent_states.length ∧
        mk.stats.ca_density = m.stats.ca_density ++ ds ∧ ds.length = k ∧
        mk.stats.network.snapshots = m.stats.network.snapshots ++ nets ∧ nets.length = k ∧
        mk.stats.ca_density.getLast? = some mk.CurrentDensity := by
  intro k
  induction k with
  | zero =>
    intro m hlen hlast
    exact ⟨m, [], [], rfl, hlen, by simp, rfl, by simp, rfl, hlast⟩
  | succ k ih =>
    intro m hlen hlast
    obtain ⟨net, m1, _, hstep, hlen1, hd1, hn1⟩ := Step_stats cm ts rule m hlen
    obtain ⟨mk, ds, nets, hrun, hlenk, hdk, hdsl, hnk, hnl, hlastk⟩ :=
      ih m1 hlen1 (by rw [hd1]; simp)
    refine ⟨mk, m1.CurrentDensity :: ds, net :: nets, ?_, hlenk, ?_, by simp [hdsl], ?_,
      by simp [hnl], hlastk⟩
    · simp only [run, hstep]
      exact hrun
    · rw [hdk, hd1]; simp
    · rw [hnk, hn1]; simp

/-- The constructor records exactly one density, the current one, and one snapshot. -/
theorem construct_stats (cm : CMath R) (ts : TurnSchedule R) (rs : RandomSource R G)
    (arena_size : R) (num_agents : Int) (communication_range : R) (seed : Int)
    (initial_density : R) :
    ∃ m net, construct cm ts rs arena_size num_agents communication_range seed
        initial_density = .ok m ∧
      m.agents.length = m.agent_states.length ∧
      m.stats.ca_density = [m.CurrentDensity] ∧ m.stats.network.snapshots = [net] ∧
      m.CurrentNetwork = .ok net := by
  obtain ⟨h1, h2⟩ := construct.populate_length cm ts rs arena_size initial_density
    num_agents.toNat (rs.seed seed)
  obtain ⟨net, hnet, _⟩ := CurrentNetwork_spec
    (construct.initial cm ts rs arena_size num_agents communication_range seed initial_density)
  refine ⟨(construct.initial cm ts rs arena_size num_agents communication_range seed
    initial_density).recordState net, net, ?_, ?_, rfl, rfl, hnet⟩
  · simp only [construct, hnet]
  · exact h1.trans h2.symm

/-- C18: the constructor records exactly one density and one snapshot (timestep 0);
after `k` steps `ElapsedTime()` is `k + 1`, the density history has `k + 1` entries, as
many as the network has snapshots, it starts with the entry of the constructor, and it
ends with `CurrentDensity()`; one more step, the `k+1`-th, appends exactly one density
(the new `CurrentDensity()`) and one snapshot and leaves the earlier entries as they
were. -/
theorem stats_lockstep (cm : CMath R) (ts : TurnSchedule R) (rs : RandomSource R G)
    (arena_size : R) (num_agents : Int) (communication_range : R) (seed : Int)
    (initial_density : R) (rule : Rule) (k : Nat) :
    ∃ m mk mk1 net,
      construct cm ts rs arena_size num_agents communication_range seed initial_density
        = .ok m ∧
      m.stats.GetDensityHistory = [m.CurrentDensity] ∧ m.stats.ElapsedTime = 1 ∧
      run cm ts rule k m = (.ok (), mk) ∧
      mk.stats.ElapsedTime = k + 1 ∧
      mk.stats.GetDensityHistory.length = k + 1 ∧
      mk.stats.GetDensityHistory.length = mk.stats.GetNetwork.Size ∧
      mk.stats.GetDensityHistory.take 1 = m.stats.GetDensityHistory ∧
      mk.stats.GetNetwork.snapshots.take 1 = m.stats.GetNetwork.snapshots ∧
      mk.stats.GetDensityHistory.getLast? = some mk.CurrentDensity ∧
      run cm ts rule (k + 1) m = (.ok (), mk1) ∧
      Step cm ts rule mk = (.ok (), mk1) ∧
      mk1.stats.GetDensityHistory = mk.stats.GetDensityHistory ++ [mk1.CurrentDensity] ∧
      mk1.stats.GetNetwork.snapshots = mk.stats.GetNetwork.snapshots ++ [net] ∧
      mk1.stats.ElapsedTime = k + 2 := by
  obtain ⟨m, net0, hm, hlen, hd0, hn0, _⟩ := construct_stats cm ts rs arena_size num_agents
    communication_range seed initial_density
  obtain ⟨mk, ds, nets, hrun, hlenk, hdk, hdsl, hnk, hnl, hlastk⟩ :=
    run_stats cm ts rule k m hlen (by rw [hd0]; rfl)
  obtain ⟨net, mk1, _, hstep, _, hd1, hn1⟩ := Step_stats cm ts rule mk hlenk
  have hsz : mk.stats.network.snapshots.length = k + 1 := by
    rw [hnk, hn0]; simp [hnl]
  refine ⟨m, mk, mk1, net, hm, hd0, ?_, hrun, ?_, ?_, ?_, ?_, ?_, hlastk, ?_, hstep, hd1,
    hn1, ?_⟩
  · simp [ModelStats.ElapsedTime, Network.Size, hn0]
  · simpa [ModelStats.ElapsedTime, Network.Size] using hsz
  · simp only [ModelStats.GetDensityHistory, hdk, hd0]
    simp [hdsl]
  · simp only [ModelStats.GetDensityHistory, ModelStats.GetNetwork, Network.Size, hsz, hdk,
      hd0]
    simp [hdsl]
  · simp only [ModelStats.GetDensityHistory, hdk, hd0]
    simp
  · simp only [ModelStats.GetNetwork, hnk, hn0]
    simp
  · rw [run_succ_last cm ts rule k m mk hrun, hstep]
  · simp only [ModelStats.ElapsedTime, Network.Size, hn1, List.length_append, hsz]
    simp

end
end Model

namespace NetworkSnapshot

/-- C12 at the edge `(0, 2)` on three isolated vertices. -/
theorem AddEdge_idempotent_witness :
    ((⟨3, [∅, ∅, ∅]⟩ : NetworkSnapshot).AddEdge 0 2).1 = .ok () ∧
    (((⟨3, [∅, ∅, ∅]⟩ : NetworkSnapshot).AddEdge 0 2).2.AddEdge 0 2).1 = .ok () ∧
    (((⟨3, [∅, ∅, ∅]⟩ : NetworkSnapshot).AddEdge 0 2).2.AddEdge 2 0).1 = .ok () ∧
    (((⟨3, [∅, ∅, ∅]⟩ : NetworkSnapshot).AddEdge 0 2).2.AddEdge 0 2).2 =
      ((⟨3, [∅, ∅, ∅]⟩ : NetworkSnapshot).AddEdge 0 2).2 ∧
    (((⟨3, [∅, ∅, ∅]⟩ : NetworkSnapshot).AddEdge 0 2).2.AddEdge 2 0).2 =
      ((⟨3, [∅, ∅, ∅]⟩ : NetworkSnapshot).AddEdge 0 2).2 ∧
    operatorEq (((⟨3, [∅, ∅, ∅]⟩ : NetworkSnapshot).AddEdge 0 2).2.AddEdge 0 2).2
      ((⟨3, [∅, ∅, ∅]⟩ : NetworkSnapshot).AddEdge 0 2).2 = true ∧
    operatorEq (((⟨3, [∅, ∅, ∅]⟩ : NetworkSnapshot).AddEdge 0 2).2.AddEdge 2 0).2
      ((⟨3, [∅, ∅, ∅]⟩ : NetworkSnapshot).AddEdge 0 2).2 = true ∧
    (((⟨3, [∅, ∅, ∅]⟩ : NetworkSnapshot).AddEdge 0 2).2.AddEdge 0 2).2.EdgeCount =
      ((⟨3, [∅, ∅, ∅]⟩ : NetworkSnapshot).AddEdge 0 2).2.EdgeCount ∧
    (((⟨3, [∅, ∅, ∅]⟩ : NetworkSnapshot).AddEdge 0 2).2.AddEdge 2 0).2.EdgeCount =
      ((⟨3, [∅, ∅, ∅]⟩ : NetworkSnapshot).AddEdge 0 2).2.EdgeCount :=
  AddEdge_idempotent ⟨3, [∅, ∅, ∅]⟩ 0 2 (by decide) (by decide) (by decide) (by decide)
    (by decide) (by decide)

end NetworkSnapshot

/-! ## Steps of an agent: no bounce, moderate speed, corners -/

namespace Heading

/-- The real cosine does not see the normalisation of a heading. -/
theorem real_cos_normalize (x : ℝ) :
    Real.cos (normalize (⟨Real.pi, Real.cos, Real.sin⟩ : CMath ℝ) x) = Real.cos x := by
  simp only [normalize]
  exact Real.cos_sub_int_mul_two_pi x _

/-- The real sine does not see the normalisation of a heading. -/
theorem real_sin_normalize (x : ℝ) :
    Real.sin (normalize (⟨Real.pi, Real.cos, Real.sin⟩ : CMath ℝ) x) = Real.sin x := by
  simp only [normalize]
  exact Real.sin_sub_int_mul_two_pi x _

end Heading

namespace Agent
section
variable {R : Type} [LinearOrderedField R] [FloorRing R]

theorem IsOutOfBounds_eq_false (a : Agent R) (p : Point R)
    (hx1 : -(a.arena_size / 2) ≤ p.x) (hx2 : p.x ≤ a.arena_size / 2)
    (hy1 : -(a.arena_size / 2) ≤ p.y) (hy2 : p.y ≤ a.arena_size / 2) :
    a.IsOutOfBounds p = false := by
  have c1 : ¬ p.x < (-a.arena_size) / 2 := by rw [neg_div]; exact not_lt.mpr hx1
  have c2 : ¬ p.x > a.arena_size / 2 := not_lt.mpr hx2
  have c3 : ¬ p.y < (-a.arena_size) / 2 := by rw [neg_div]; exact not_lt.mpr hy1
  have c4 : ¬ p.y > a.arena_size / 2 := not_lt.mpr hy2
  simp [IsOutOfBounds, Point.GetX, Point.GetY, c1, c2, c3, c4]

theorem Step_of_in (cm : CMath R) (a : Agent R) (h : a.IsOutOfBounds (a.tentative cm) = false) :
    a.Step cm = { a with position := a.tentative cm } := by
  simp only [Step, h]
  rfl

end

/-- One step of an agent of speed 1 at the centre of an arena of side at least 2, with
the real cosine and sine: the position is the unit displacement of the heading. -/
theorem Step_centre_real (arena θ : ℝ) (ui tk : Int) (harena : 2 ≤ arena) :
    (Agent.Step (⟨Real.pi, Real.cos, Real.sin⟩ : CMath ℝ)
      ⟨1, arena, ⟨0, 0⟩, Heading.ofRadians ⟨Real.pi, Real.cos, Real.sin⟩ θ, ui, tk⟩).position
      = ⟨Real.cos θ, Real.sin θ⟩ := by
  have hc1 := Real.neg_one_le_cos θ
  have hc2 := Real.cos_le_one θ
  have hs1 := Real.neg_one_le_sin θ
  have hs2 := Real.sin_le_one θ
  have ht : Agent.tentative (⟨Real.pi, Real.cos, Real.sin⟩ : CMath ℝ)
      ⟨1, arena, ⟨0, 0⟩, Heading.ofRadians ⟨Real.pi, Real.cos, Real.sin⟩ θ, ui, tk⟩
      = ⟨Real.cos θ, Real.sin θ⟩ := by
    simp [tentative, Heading.ofRadians, Heading.Radians, Point.GetX, Point.GetY,
      Heading.real_cos_normalize, Heading.real_sin_normalize]
  rw [Step_of_in _ _ (IsOutOfBounds_eq_false _ _ (by rw [ht]; simp only; linarith)
    (by rw [ht]; simp only; linarith) (by rw [ht]; simp only; linarith)
    (by rw [ht]; simp only; linarith))]
  exact ht

section
variable {R : Type} [LinearOrderedField R] [FloorRing R]

/-- C21: when the tentative position `(x + speed*cos(heading), y + speed*sin(heading))`
lies in the closed arena square, `Step()` sets the position to exactly that point and
leaves heading, speed and arena size as they were; and with the real cosine and sine
an agent of speed 1 at the centre of an arena of side at least 2 with heading `0`,
`M_PI`, `M_PI/2`, `-M_PI/2` ends at `(1,0)`, `(-1,0)`, `(0,1)`, `(0,-1)`. -/
theorem Step_no_bounce (cm : CMath R) (a : Agent R)
    (hx1 : -(a.arena_size / 2) ≤ a.position.x + a.speed * cm.cos a.heading.radians)
    (hx2 : a.position.x + a.speed * cm.cos a.heading.radians ≤ a.arena_size / 2)
    (hy1 : -(a.arena_size / 2) ≤ a.position.y + a.speed * cm.sin a.heading.radians)
    (hy2 : a.position.y + a.speed * cm.sin a.heading.radians ≤ a.arena_size / 2) :
    ((a.Step cm).position =
        ⟨a.position.x + a.speed * cm.cos a.heading.radians,
          a.position.y + a.speed * cm.sin a.heading.radians⟩ ∧
      (a.Step cm).heading = a.heading ∧ (a.Step cm).speed = a.speed ∧
      (a.Step cm).arena_size = a.arena_size) ∧
    (∀ (arena : ℝ) (ui tk : Int), 2 ≤ arena →
      (Agent.Step (⟨Real.pi, Real.cos, Real.sin⟩ : CMath ℝ)
        ⟨1, arena, ⟨0, 0⟩, Heading.ofRadians ⟨Real.pi, Real.cos, Real.sin⟩ 0, ui, tk⟩).position
        = ⟨1, 0⟩ ∧
      (Agent.Step (⟨Real.pi, Real.cos, Real.sin⟩ : CMath ℝ)
        ⟨1, arena, ⟨0, 0⟩, Heading.ofRadians ⟨Real.pi, Real.cos, Real.sin⟩ Real.pi, ui, tk⟩).position
        = ⟨-1, 0⟩ ∧
      (Agent.Step (⟨Real.pi, Real.cos, Real.sin⟩ : CMath ℝ)
        ⟨1, arena, ⟨0, 0⟩, Heading.ofRadians ⟨Real.pi, Real.cos, Real.sin⟩ (Real.pi / 2),
          ui, tk⟩).position = ⟨0, 1⟩ ∧
      (Agent.Step (⟨Real.pi, Real.cos, Real.sin⟩ : CMath ℝ)
        ⟨1, arena, ⟨0, 0⟩, Heading.ofRadians ⟨Real.pi, Real.cos, Real.sin⟩ (-(Real.pi / 2)),
          ui, tk⟩).position = ⟨0, -1⟩) := by
  constructor
  · have hin : a.IsOutOfBounds (a.tentative cm) = false :=
      IsOutOfBounds_eq_false a _ hx1 hx2 hy1 hy2
    rw [Step_of_in cm a hin]
    exact ⟨rfl, rfl, rfl, rfl⟩
  · intro arena ui tk harena
    refine ⟨?_, ?_, ?_, ?_⟩
    · rw [Step_centre_real arena 0 ui tk harena]; simp
    · rw [Step_centre_real arena Real.pi ui tk harena]; simp
    · rw [Step_centre_real arena (Real.pi / 2) ui tk harena]; simp
    · rw [Step_centre_real arena (-(Real.pi / 2)) ui tk harena]; simp

end
end Agent

section
variable {R : Type} [LinearOrderedField R] [FloorRing R]

namespace Heading

/-- Mirroring in an x-wall and then in a y-wall turns any heading by a half turn. -/
theorem mirror_both (cm : CMath R) (hpi : 0 < cm.M_PI) (h : Heading R) :
    sub cm (ofRadians cm (2 * cm.M_PI)) (sub cm (ofRadians cm cm.M_PI) h) =
      add cm h (ofRadians cm cm.M_PI) := by
  have e : (ofRadians cm (2 * cm.M_PI)).radians -
        (sub cm (ofRadians cm cm.M_PI) h).radians =
      (h.radians + (ofRadians cm cm.M_PI).radians) +
        ((-⌊2 * cm.M_PI / (2 * cm.M_PI)⌋ + 2 * ⌊cm.M_PI / (2 * cm.M_PI)⌋ +
          ⌊(cm.M_PI - ⌊cm.M_PI / (2 * cm.M_PI)⌋ * (2 * cm.M_PI) - h.radians) /
            (2 * cm.M_PI)⌋ : Int) : R) * (2 * cm.M_PI) := by
    simp only [sub, ofRadians, normalize]
    push_cast
    ring
  unfold sub add
  rw [← ofRadians_add_turns cm hpi (h.radians + (ofRadians cm cm.M_PI).radians)
    (-⌊2 * cm.M_PI / (2 * cm.M_PI)⌋ + 2 * ⌊cm.M_PI / (2 * cm.M_PI)⌋ +
      ⌊(cm.M_PI - ⌊cm.M_PI / (2 * cm.M_PI)⌋ * (2 * cm.M_PI) - h.radians) /
        (2 * cm.M_PI)⌋)]
  congr 1

end Heading

namespace Agent

theorem ReflectX_arena_size (cm : CMath R) (a : Agent R) (p : Point R) :
    (ReflectX cm a p).2.arena_size = a.arena_size := by
  unfold ReflectX
  split_ifs <;> rfl

/-- The abscissa `Reflect` returns is in the arena when the point is at most one arena
width beyond a wall. -/
theorem ReflectX_bounds (cm : CMath R) (a : Agent R) (p : Point R)
    (h1 : -(a.arena_size / 2) - a.arena_size ≤ p.x)
    (h2 : p.x ≤ a.arena_size / 2 + a.arena_size) :
    -(a.arena_size / 2) ≤ (ReflectX cm a p).1 ∧ (ReflectX cm a p).1 ≤ a.arena_size / 2 := by
  unfold ReflectX
  simp only [Point.GetX, neg_div]
  split_ifs with c1 c2
  · constructor <;> simp only <;> linarith
  · constructor <;> simp only <;> linarith
  · exact ⟨not_lt.mp c2, not_lt.mp c1⟩

/-- The ordinate `Reflect` returns is in the arena when the point is at most one arena
width beyond a wall. -/
theorem ReflectY_bounds (cm : CMath R) (a : Agent R) (p : Point R)
    (h1 : -(a.arena_size / 2) - a.arena_size ≤ p.y)
    (h2 : p.y ≤ a.arena_size / 2 + a.arena_size) :
    -(a.arena_size / 2) ≤ (ReflectY cm a p).1 ∧ (ReflectY cm a p).1 ≤ a.arena_size / 2 := by
  unfold ReflectY
  simp only [Point.GetY, neg_div]
  split_ifs with c1 c2
  · constructor <;> simp only <;> linarith
  · constructor <;> simp only <;> linarith
  · exact ⟨not_lt.mp c2, not_lt.mp c1⟩

theorem Reflect_bounds_x (cm : CMath R) (a : Agent R) (p : Point R)
    (h1 : -(a.arena_size / 2) - a.arena_size ≤ p.x)
    (h2 : p.x ≤ a.arena_size / 2 + a.arena_size) :
    -(a.arena_size / 2) ≤ (a.Reflect cm p).1.x ∧ (a.Reflect cm p).1.x ≤ a.arena_size / 2 :=
  ReflectX_bounds cm a p h1 h2

theorem Reflect_bounds_y (cm : CMath R) (a : Agent R) (p : Point R)
    (h1 : -(a.arena_size / 2) - a.arena_size ≤ p.y)
    (h2 : p.y ≤ a.arena_size / 2 + a.arena_size) :
    -(a.arena_size / 2) ≤ (a.Reflect cm p).1.y ∧ (a.Reflect cm p).1.y ≤ a.arena_size / 2 := by
  have h := ReflectY_bounds cm (ReflectX cm a p).2 p
  rw [ReflectX_arena_size] at h
  exact h h1 h2

/-- C24: with a cosine and a sine bounded by 1 in absolute value, an agent in the
closed arena square with `0 <= speed <= arena_size` is in the closed arena square
after `Step()`; and for any point whose abscissa (ordinate) is at most `arena_size`
beyond a wall, the abscissa (ordinate) of the point `Reflect` returns lies in
`[-arena_size/2, arena_size/2]`. -/
theorem Step_moderate_speed (cm : CMath R) (a : Agent R)
    (hcos : ∀ t, -1 ≤ cm.cos t ∧ cm.cos t ≤ 1) (hsin : ∀ t, -1 ≤ cm.sin t ∧ cm.sin t ≤ 1)
    (hx1 : -(a.arena_size / 2) ≤ a.position.x) (hx2 : a.position.x ≤ a.arena_size / 2)
    (hy1 : -(a.arena_size / 2) ≤ a.position.y) (hy2 : a.position.y ≤ a.arena_size / 2)
    (hs0 : 0 ≤ a.speed) (hs1 : a.speed ≤ a.arena_size) :
    (-(a.arena_size / 2) ≤ (a.Step cm).position.x ∧
      (a.Step cm).position.x ≤ a.arena_size / 2 ∧
      -(a.arena_size / 2) ≤ (a.Step cm).position.y ∧
      (a.Step cm).position.y ≤ a.arena_size / 2) ∧
    (∀ p : Point R, -(a.arena_size / 2) - a.arena_size ≤ p.x →
      p.x ≤ a.arena_size / 2 + a.arena_size →
      -(a.arena_size / 2) ≤ (a.Reflect cm p).1.x ∧ (a.Reflect cm p).1.x ≤ a.arena_size / 2) ∧
    (∀ p : Point R, -(a.arena_size / 2) - a.arena_size ≤ p.y →
      p.y ≤ a.arena_size / 2 + a.arena_size →
      -(a.arena_size / 2) ≤ (a.Reflect cm p).1.y ∧
        (a.Reflect cm p).1.y ≤ a.arena_size / 2) := by
  refine ⟨?_, fun p => Reflect_bounds_x cm a p, fun p => Reflect_bounds_y cm a p⟩
  obtain ⟨c1, c2⟩ := hcos a.heading.Radians
  obtain ⟨s1, s2⟩ := hsin a.heading.Radians
  have dx1 : -a.speed ≤ a.speed * cm.cos a.heading.Radians := by nlinarith
  have dx2 : a.speed * cm.cos a.heading.Radians ≤ a.speed := by nlinarith
  have dy1 : -a.speed ≤ a.speed * cm.sin a.heading.Radians := by nlinarith
  have dy2 : a.speed * cm.sin a.heading.Radians ≤ a.speed := by nlinarith
  have tx : (a.tentative cm).x = a.position.x + a.speed * cm.cos a.heading.Radians := rfl
  have ty : (a.tentative cm).y = a.position.y + a.speed * cm.sin a.heading.Radians := rfl
  have bx := Reflect_bounds_x cm a (a.tentative cm) (by rw [tx]; linarith) (by rw [tx]; linarith)
  have by1 := Reflect_bounds_y cm a (a.tentative cm) (by rw [ty]; linarith)
    (by rw [ty]; linarith)
  by_cases hout : a.IsOutOfBounds (a.tentative cm) = true
  · rw [Step_of_out cm a hout]
    exact ⟨bx.1, bx.2, by1.1, by1.2⟩
  · have hin : a.IsOutOfBounds (a.tentative cm) = false := by
      simpa using hout
    rw [Step_of_in cm a hin]
    simp only [IsOutOfBounds, Point.GetX, Point.GetY, neg_div, Bool.or_eq_false_iff,
      decide_eq_false_iff_not, not_lt] at hin
    obtain ⟨⟨⟨i1, i2⟩, i3⟩, i4⟩ := hin
    exact ⟨i1, i2, i3, i4⟩

/-- C25: for a point outside an arena of positive size on both axes, `Reflect` mirrors
each coordinate about the wall it crossed, each from the coordinate of the point, and
leaves the heading at `Heading(2*M_PI) - (Heading(M_PI) - heading)`, which is the old
heading plus `Heading(M_PI)`; when the point is the tentative position of the agent,
`Step()` ends at that mirrored point with that heading. -/
theorem Reflect_corner (cm : CMath R) (a : Agent R) (p : Point R)
    (harena : 0 < a.arena_size) (hpi : 0 < cm.M_PI)
    (hx : p.x > a.arena_size / 2 ∨ p.x < -(a.arena_size / 2))
    (hy : p.y > a.arena_size / 2 ∨ p.y < -(a.arena_size / 2)) :
    (a.Reflect cm p).1.x =
      (if p.x > a.arena_size / 2 then a.arena_size / 2 - (p.x - a.arena_size / 2)
        else -(a.arena_size / 2) - (p.x + a.arena_size / 2)) ∧
    (a.Reflect cm p).1.y =
      (if p.y > a.arena_size / 2 then a.arena_size / 2 - (p.y - a.arena_size / 2)
        else -(a.arena_size / 2) - (p.y + a.arena_size / 2)) ∧
    (a.Reflect cm p).2.heading =
      Heading.sub cm (Heading.ofRadians cm (2 * cm.M_PI))
        (Heading.sub cm (Heading.ofRadians cm cm.M_PI) a.heading) ∧
    (a.Reflect cm p).2.heading = Heading.add cm a.heading (Heading.ofRadians cm cm.M_PI) ∧
    (p = a.tentative cm →
      (a.Step cm).position = (a.Reflect cm p).1 ∧
      (a.Step cm).heading = Heading.add cm a.heading (Heading.ofRadians cm cm.M_PI)) := by
  have hX : (ReflectX cm a p).1 =
        (if p.x > a.arena_size / 2 then a.arena_size / 2 - (p.x - a.arena_size / 2)
          else -(a.arena_size / 2) - (p.x + a.arena_size / 2)) ∧
      (ReflectX cm a p).2 =
        { a with heading := Heading.sub cm (Heading.ofRadians cm cm.M_PI) a.heading } := by
    unfold ReflectX
    simp only [Point.GetX, neg_div]
    rcases hx with c | c
    · simp [c]
    · have c1 : ¬ p.x > a.arena_size / 2 := by
        intro c2; linarith
      simp [c, c1]
  have hY : ∀ b : Agent R, b.arena_size = a.arena_size →
      (ReflectY cm b p).1 =
        (if p.y > a.arena_size / 2 then a.arena_size / 2 - (p.y - a.arena_size / 2)
          else -(a.arena_size / 2) - (p.y + a.arena_size / 2)) ∧
      (ReflectY cm b p).2.heading =
        Heading.sub cm (Heading.ofRadians cm (2 * cm.M_PI)) b.heading := by
    intro b hb
    unfold ReflectY
    simp only [Point.GetY, neg_div, hb]
    rcases hy with c | c
    · simp [c]
    · have c1 : ¬ p.y > a.arena_size / 2 := by
        intro c2; linarith
      simp [c, c1]
  have hY2 := hY (ReflectX cm a p).2 (ReflectX_arena_size cm a p)
  have hhead : (a.Reflect cm p).2.heading =
      Heading.sub cm (Heading.ofRadians cm (2 * cm.M_PI))
        (Heading.sub cm (Heading.ofRadians cm cm.M_PI) a.heading) := by
    simp only [Reflect]
    rw [hY2.2, hX.2]
  have hhead2 : (a.Reflect cm p).2.heading =
      Heading.add cm a.heading (Heading.ofRadians cm cm.M_PI) := by
    rw [hhead, Heading.mirror_both cm hpi]
  refine ⟨hX.1, hY2.1, hhead, hhead2, ?_⟩
  intro hp
  have hout : a.IsOutOfBounds (a.tentative cm) = true := by
    rw [← hp]
    simp only [IsOutOfBounds, Point.GetX, neg_div]
    rcases hx with c | c
    · simp [c]
    · simp [c]
  rw [Step_of_out cm a hout, ← hp]
  exact ⟨rfl, hhead2⟩

end Agent
end

namespace Examples

theorem walker_tentative : walker.tentative cm = ⟨1, 0⟩ := by
  simp [Agent.tentative, walker, Agent.new, cm, Heading.ofRadians, Heading.normalize,
    Heading.Radians, Point.GetX, Point.GetY]
  norm_num

theorem cm_cos_bounded (t : ℚ) : -1 ≤ cm.cos t ∧ cm.cos t ≤ 1 := by
  simp only [cm]
  split_ifs <;> norm_num

theorem cm_sin_bounded (t : ℚ) : -1 ≤ cm.sin t ∧ cm.sin t ≤ 1 := by
  simp only [cm]
  split_ifs <;> norm_num

end Examples

namespace Agent

/-- C21 on the agent `agent_pos_x` of `stepNoBounce`: from the centre with heading 0
and speed 1 in an arena of side 10 the step ends at `(1, 0)`, which is the tentative
position, with heading, speed and arena size as before. -/
theorem Step_no_bounce_witness :
    Examples.walker.tentative Examples.cm = ⟨1, 0⟩ ∧
    (Examples.walker.Step Examples.cm).position =
      ⟨Examples.walker.position.x +
          Examples.walker.speed * Examples.cm.cos Examples.walker.heading.radians,
        Examples.walker.position.y +
          Examples.walker.speed * Examples.cm.sin Examples.walker.heading.radians⟩ ∧
    (Examples.walker.Step Examples.cm).heading = Examples.walker.heading ∧
    (Examples.walker.Step Examples.cm).speed = Examples.walker.speed ∧
    (Examples.walker.Step Examples.cm).arena_size = Examples.walker.arena_size :=
  have ht := Examples.walker_tentative
  have hx : Examples.walker.position.x +
      Examples.walker.speed * Examples.cm.cos Examples.walker.heading.radians = 1 :=
    congrArg Point.x ht
  have hy : Examples.walker.position.y +
      Examples.walker.speed * Examples.cm.sin Examples.walker.heading.radians = 0 :=
    congrArg Point.y ht
  have ha : Examples.walker.arena_size = 10 := rfl
  ⟨ht, (Step_no_bounce Examples.cm Examples.walker (by rw [hx, ha]; norm_num)
    (by rw [hx, ha]; norm_num) (by rw [hy, ha]; norm_num) (by rw [hy, ha]; norm_num)).1⟩

/-- C24 on the agent of `bouncePerpendicularPosition` that starts on the right wall
with speed 2 in an arena of side 10: after the step it is in `[-5, 5]²`. -/
theorem Step_moderate_speed_witness :
    -(Examples.bouncer.arena_size / 2) ≤ (Examples.bouncer.Step Examples.cm).position.x ∧
    (Examples.bouncer.Step Examples.cm).position.x ≤ Examples.bouncer.arena_size / 2 ∧
    -(Examples.bouncer.arena_size / 2) ≤ (Examples.bouncer.Step Examples.cm).position.y ∧
    (Examples.bouncer.Step Examples.cm).position.y ≤ Examples.bouncer.arena_size / 2 :=
  have ha : Examples.bouncer.arena_size = 10 := rfl
  have hs : Examples.bouncer.speed = 2 := rfl
  have hx : Examples.bouncer.position.x = 5 := rfl
  have hy : Examples.bouncer.position.y = 0 := rfl
  (Step_moderate_speed Examples.cm Examples.bouncer Examples.cm_cos_bounded
    Examples.cm_sin_bounded (by rw [ha, hx]; norm_num) (by rw [ha, hx]; norm_num)
    (by rw [ha, hy]; norm_num) (by rw [ha, hy]; norm_num) (by rw [hs]; norm_num)
    (by rw [ha, hs]; norm_num)).1

/-- C25 with the real cosine and sine: an agent in the corner `(5, 5)` of an arena of
side 10 with heading `M_PI/4` and speed 1 has its tentative position beyond both
walls; after the step it is at the point `Reflect` returns and its heading has turned
by a half turn. -/
theorem Reflect_corner_witness :
    (Agent.Step (⟨Real.pi, Real.cos, Real.sin⟩ : CMath ℝ)
        ⟨1, 10, ⟨5, 5⟩, Heading.ofRadians ⟨Real.pi, Real.cos, Real.sin⟩ (Real.pi / 4),
          1, 0⟩).position =
      (Agent.Reflect (⟨Real.pi, Real.cos, Real.sin⟩ : CMath ℝ)
        ⟨1, 10, ⟨5, 5⟩, Heading.ofRadians ⟨Real.pi, Real.cos, Real.sin⟩ (Real.pi / 4), 1, 0⟩
        (Agent.tentative (⟨Real.pi, Real.cos, Real.sin⟩ : CMath ℝ)
          ⟨1, 10, ⟨5, 5⟩, Heading.ofRadians ⟨Real.pi, Real.cos, Real.sin⟩ (Real.pi / 4),
            1, 0⟩)).1 ∧
    (Agent.Step (⟨Real.pi, Real.cos, Real.sin⟩ : CMath ℝ)
        ⟨1, 10, ⟨5, 5⟩, Heading.ofRadians ⟨Real.pi, Real.cos, Real.sin⟩ (Real.pi / 4),
          1, 0⟩).heading =
      Heading.add ⟨Real.pi, Real.cos, Real.sin⟩
        (Heading.ofRadians ⟨Real.pi, Real.cos, Real.sin⟩ (Real.pi / 4))
        (Heading.ofRadians ⟨Real.pi, Real.cos, Real.sin⟩ Real.pi) :=
  have ht : Agent.tentative (⟨Real.pi, Real.cos, Real.sin⟩ : CMath ℝ)
      ⟨1, 10, ⟨5, 5⟩, Heading.ofRadians ⟨Real.pi, Real.cos, Real.sin⟩ (Real.pi / 4), 1, 0⟩
      = ⟨5 + Real.cos (Real.pi / 4), 5 + Real.sin (Real.pi / 4)⟩ := by
    simp only [tentative, Heading.ofRadians, Heading.Radians, Point.GetX, Point.GetY,
      Heading.real_cos_normalize, Heading.real_sin_normalize, one_mul]
  have hc : 0 < Real.cos (Real.pi / 4) := by
    rw [Real.cos_pi_div_four]; positivity
  have hs : 0 < Real.sin (Real.pi / 4) := by
    rw [Real.sin_pi_div_four]; positivity
  (Reflect_corner (⟨Real.pi, Real.cos, Real.sin⟩ : CMath ℝ)
    ⟨1, 10, ⟨5, 5⟩, Heading.ofRadians ⟨Real.pi, Real.cos, Real.sin⟩ (Real.pi / 4), 1, 0⟩
    (Agent.tentative (⟨Real.pi, Real.cos, Real.sin⟩ : CMath ℝ)
      ⟨1, 10, ⟨5, 5⟩, Heading.ofRadians ⟨Real.pi, Real.cos, Real.sin⟩ (Real.pi / 4), 1, 0⟩)
    (by norm_num) Real.pi_pos
    (Or.inl (by rw [ht]; simp only; linarith))
    (Or.inl (by rw [ht]; simp only; linarith))).2.2.2.2 rfl

end Agent

/-! ## Degenerate configurations and unreachable faults -/

namespace Model
section
variable {R : Type} [LinearOrderedField R] [FloorRing R] {G : Type}

/-! ### Construction validates nothing -/

/-- C22, as amended: the constructor rejects nothing: whenever the arguments meet the
preconditions of the distributions it builds (`arena_size ≥ 0`, so that
`-arena_size/2 ≤ arena_size/2`, `M_PI > 0` and `0 ≤ initial_density ≤ 1`), also with
`num_agents <= 0`, `arena_size == 0` or `communication_range <= 0`, it returns a model
with `max(num_agents, 0)` agents, as many states and the given communication range;
the model has no agent, so that `CurrentDensity()` divides by the size 0, exactly when
`num_agents <= 0`. -/
theorem construct_total (cm : CMath R) (ts : TurnSchedule R) (rs : RandomSource R G)
    (arena_size : R) (num_agents : Int) (communication_range : R) (seed : Int)
    (initial_density : R) (hpi : 0 < cm.M_PI) (harena : 0 ≤ arena_size)
    (hp0 : 0 ≤ initial_density) (hp1 : initial_density ≤ 1) :
    (-arena_size) / 2 ≤ arena_size / 2 ∧ 0 ≤ 2 * cm.M_PI ∧
    ∃ m, construct cm ts rs arena_size num_agents communication_range seed initial_density
        = .ok m ∧
      m.agents.length = num_agents.toNat ∧ m.agent_states.length = num_agents.toNat ∧
      m.communication_range = communication_range ∧
      (m.agent_states.length = 0 ↔ num_agents ≤ 0) := by
  have hp : 0 ≤ initial_density ∧ initial_density ≤ 1 := ⟨hp0, hp1⟩
  obtain ⟨h1, h2⟩ := construct.populate_length cm ts rs arena_size initial_density
    num_agents.toNat (rs.seed seed)
  obtain ⟨net, hnet, _⟩ := CurrentNetwork_spec
    (construct.initial cm ts rs arena_size num_agents communication_range seed initial_density)
  refine ⟨by rw [neg_div]; linarith, by linarith,
    (construct.initial cm ts rs arena_size num_agents communication_range seed
      initial_density).recordState net, ?_, h1, h2, rfl, ?_⟩
  · simp only [construct, hnet]
  · have h3 : ((construct.initial cm ts rs arena_size num_agents communication_range seed
        initial_density).recordState net).agent_states.length = num_agents.toNat := h2
    rw [h3]
    omega

end

/-- C22, the claim as stated fails: with `num_agents == 0` (arena 100, range 5) the
constructor returns a model without agents or states, so that `CurrentDensity()`
divides by the size 0; with `arena_size == 0` and with `communication_range == 0` it
returns a model of two agents.  No call is rejected. -/
theorem construct_accepts_degenerate :
    (∃ m, construct Examples.cm Examples.ts Examples.rs 100 0 5 1234 (1 / 2) = .ok m ∧
      m.agents = [] ∧ m.agent_states = [] ∧ m.agent_states.length = 0) ∧
    (∃ m, construct Examples.cm Examples.ts Examples.rs 0 2 5 1234 (1 / 2) = .ok m ∧
      m.agents.length = 2) ∧
    (∃ m, construct Examples.cm Examples.ts Examples.rs 100 2 0 1234 (1 / 2) = .ok m ∧
      m.agents.length = 2 ∧ m.communication_range = 0) := by
  refine ⟨?_, ?_, ?_⟩
  · obtain ⟨m, hm, h1, h2⟩ := construct_ok Examples.cm Examples.ts Examples.rs 100 0 5 1234
      (1 / 2)
    have e1 : m.agents = [] := List.length_eq_zero.mp (by simpa using h1)
    have e2 : m.agent_states = [] := List.length_eq_zero.mp (by simpa using h2)
    exact ⟨m, hm, e1, e2, by simpa using h2⟩
  · obtain ⟨m, hm, h1, _⟩ := construct_ok Examples.cm Examples.ts Examples.rs 0 2 5 1234
      (1 / 2)
    exact ⟨m, hm, by simpa using h1⟩
  · obtain ⟨h1, _⟩ := construct.populate_length Examples.cm Examples.ts Examples.rs 100
      (1 / 2) (2 : Int).toNat (Examples.rs.seed 1234)
    obtain ⟨net, hnet, _⟩ := CurrentNetwork_spec
      (construct.initial Examples.cm Examples.ts Examples.rs 100 2 0 1234 (1 / 2))
    refine ⟨(construct.initial Examples.cm Examples.ts Examples.rs 100 2 0 1234
      (1 / 2)).recordState net, ?_, ?_, rfl⟩
    · simp only [construct, hnet]
    · simpa using h1

/-- C22 as amended, at no agent in an arena of side 100 with range 5 and initial
density `1/2`: the constructor returns a model without states. -/
theorem construct_total_witness :
    (-(100 : ℚ)) / 2 ≤ (100 : ℚ) / 2 ∧ 0 ≤ 2 * Examples.cm.M_PI ∧
    ∃ m, construct Examples.cm Examples.ts Examples.rs 100 0 5 1234 (1 / 2) = .ok m ∧
      m.agents.length = (0 : Int).toNat ∧ m.agent_states.length = (0 : Int).toNat ∧
      m.communication_range = 5 ∧
      (m.agent_states.length = 0 ↔ (0 : Int) ≤ 0) :=
  construct_total Examples.cm Examples.ts Examples.rs 100 0 5 1234 (1 / 2)
    (by simp [Examples.cm]) (by norm_num) (by norm_num) (by norm_num)

section
variable {R : Type} [LinearOrderedField R] [FloorRing R] {G : Type}

/-! ### The faults of the network are unreachable -/

/-- C23: on a model with as many agents as states, `CurrentNetwork()` returns (no
`AddEdge` throws): the pairs `(i, j)` its loops visit satisfy `i != j` and lie in
`[0, n)`; `Step(rule)` returns: every `GetNeighbors(a)` it calls returns, every
neighbour it reads `agent_states` at is an index in `[0, n)`, so the reads stay inside
the vector; and the model afterwards again has as many agents as states. -/
theorem faults_unreachable (cm : CMath R) (ts : TurnSchedule R) (rule : Rule) (m : Model R G)
    (hlen : m.agents.length = m.agent_states.length) :
    (∃ net0, m.CurrentNetwork = .ok net0) ∧
    (∀ i j : Nat, i ∈ List.range m.agents.length →
      j ∈ List.range' (i + 1) (m.agents.length - (i + 1)) →
      (i : Int) ≠ j ∧ 0 ≤ (i : Int) ∧ (i : Int) < m.agents.length ∧
        0 ≤ (j : Int) ∧ (j : Int) < m.agents.length) ∧
    (∃ net m1, (Step.moved cm ts m).CurrentNetwork = .ok net ∧
      Step cm ts rule m = (.ok (), m1) ∧
      (∀ a, a < m.agent_states.length →
        ∃ nb, net.GetNeighbors a = .ok nb ∧
          (∀ k ∈ nb, 0 ≤ k ∧ k < m.agent_states.length) ∧
          Step.neighborStates m.agent_states (nb.sort (· ≤ ·)) =
            .ok ((nb.sort (· ≤ ·)).map (fun k => m.agent_states.getD k.toNat 0))) ∧
      m1.agents.length = m1.agent_states.length) := by
  refine ⟨?_, ?_, ?_⟩
  · obtain ⟨net0, h0, _⟩ := CurrentNetwork_spec m
    exact ⟨net0, h0⟩
  · intro i j hi hj
    rw [List.mem_range] at hi
    rw [List.mem_range'_1] at hj
    omega
  · obtain ⟨net, ns1, hnet, hn, hrange, hstep, hlen1, _⟩ := Step_ok cm ts rule m hlen
    refine ⟨net, _, hnet, hstep, ?_, ?_⟩
    · intro a ha
      refine ⟨net.adj a, GetNeighbors_nat net _ a hn ha, ?_, ?_⟩
      · intro k hk
        have := hrange a k hk
        omega
      · apply Step.neighborStates_spec
        intro k hk
        rw [Finset.mem_sort] at hk
        exact hrange a k hk
    · rw [Step.commit_agents, Step.commit_agent_states, Step.moved_length, hlen1, hlen]

/-- C23 at `Examples.pair` under the majority rule. -/
theorem faults_unreachable_witness :
    (∃ net0, Examples.pair.CurrentNetwork = .ok net0) ∧
    (∀ i j : Nat, i ∈ List.range Examples.pair.agents.length →
      j ∈ List.range' (i + 1) (Examples.pair.agents.length - (i + 1)) →
      (i : Int) ≠ j ∧ 0 ≤ (i : Int) ∧ (i : Int) < Examples.pair.agents.length ∧
        0 ≤ (j : Int) ∧ (j : Int) < Examples.pair.agents.length) ∧
    (∃ net m1, (Step.moved Examples.cm Examples.ts Examples.pair).CurrentNetwork = .ok net ∧
      Step Examples.cm Examples.ts MajorityRule.Apply Examples.pair = (.ok (), m1) ∧
      (∀ a, a < Examples.pair.agent_states.length →
        ∃ nb, net.GetNeighbors a = .ok nb ∧
          (∀ k ∈ nb, 0 ≤ k ∧ k < Examples.pair.agent_states.length) ∧
          Step.neighborStates Examples.pair.agent_states (nb.sort (· ≤ ·)) =
            .ok ((nb.sort (· ≤ ·)).map
              (fun k => Examples.pair.agent_states.getD k.toNat 0))) ∧
      m1.agents.length = m1.agent_states.length) :=
  faults_unreachable Examples.cm Examples.ts MajorityRule.Apply Examples.pair rfl

end
end Model

end MotionCA
